import Mathlib

/-!
Verification development for the quantum (neutron) v2 network API layer
(`nova/network/quantumv2/api.py`): a shallow embedding of its data model and
of the operations relevant to the stated properties, together with theorems
settling those properties.

The remote network service's record store (networks, ports, floating IPs,
security groups) is modelled as an explicit state value threaded through the
operations; remote-call failures are injected through an explicit failure
specification.  Machine-level details that no property mentions (subnet/DHCP
enrichment of the info model, bridge and device naming) are elided from the
attachment records; everything that the properties touch is translated from
the source.
-/

namespace QuantumV2

/-- Python truthiness for an optional string: `None` and `''` are falsy. -/
def pyTruthy : Option String → Bool
  | none => false
  | some s => s ≠ ""

/-- Python `list.index`: position of the first occurrence, `none` when the
element does not occur (where CPython raises `ValueError`). -/
def pyIndex : List String → String → Option Nat
  | [], _ => none
  | y :: ys, x => if y = x then some 0 else (pyIndex ys x).map (· + 1)

/-- Error conditions raised by the operations (the `nova.exception` /
client-exception types that the source raises or lets propagate). -/
inductive NovaError where
  | invalidInput
  | portNotUsable (port_id : String)
  | portNotFound (port_id : String)
  | noUniqueMatch
  | securityGroupNotFound (sg : String)
  | securityGroupCannotBeApplied
  | portNotFree
  | remoteError (op : String)
  | valueError
  | fixedIpNotFoundForAddress (address : String)
  | fixedIpNotFoundForSpecificInstance (uuid address : String)
  | floatingIpNotFoundForAddress (address : String)
  | floatingIpMultipleFoundForAddress (address : String)
  | floatingIpAssociated (address : String)
  | networkNotFound
  | networkDuplicated (network_id : String)
  | portInUse (port_id : String)
deriving DecidableEq, Repr

/-- The stable sort underlying `list.sort(key=lambda i: preferred.index(accessor(i)))`:
concatenation, over the key values `0, 1, ...` in order, of the sublists of
elements carrying that key, each in original relative order.  A stable sort is
extensionally exactly this bucket concatenation. -/
def sortByPreferred (accessor : α → String) (unordered : List α)
    (preferred : List String) : List α :=
  (List.range preferred.length).flatMap
    (fun j => unordered.filter (fun x => pyIndex preferred (accessor x) = some j))

/-- `_ensure_requested_network_ordering(accessor, unordered, preferred)`:
when `preferred` is truthy, sort `unordered` by the position of each element's
id in `preferred`; an element whose id does not occur makes the key function
(`preferred.index`) raise `ValueError`.  The source mutates the list in place;
the embedding returns the resulting list. -/
def ensureRequestedNetworkOrdering (accessor : α → String) (unordered : List α)
    (preferred : List String) : Except NovaError (List α) :=
  if preferred.isEmpty then .ok unordered
  else if unordered.all (fun x => (pyIndex preferred (accessor x)).isSome) then
    .ok (sortByPreferred accessor unordered preferred)
  else .error .valueError

/-! ### Basic facts about `pyIndex` and the bucket sort -/

theorem pyIndex_lt_length {l : List String} {x : String} {j : Nat}
    (h : pyIndex l x = some j) : j < l.length := by
  induction l generalizing j with
  | nil => simp [pyIndex] at h
  | cons y ys ih =>
    simp only [pyIndex] at h
    by_cases hy : y = x
    · rw [if_pos hy] at h
      injection h with h0
      simp [← h0]
    · rw [if_neg hy] at h
      rcases Option.map_eq_some'.mp h with ⟨j', hj', rfl⟩
      have := ih hj'
      simp only [List.length_cons]
      omega

theorem pyIndex_isSome_of_mem {l : List String} {x : String}
    (h : x ∈ l) : (pyIndex l x).isSome := by
  induction l with
  | nil => simp at h
  | cons y ys ih =>
    simp only [pyIndex]
    by_cases hy : y = x
    · simp [hy]
    · have hx : x ∈ ys := by
        rcases List.mem_cons.mp h with h' | h'
        · exact absurd h'.symm hy
        · exact h'
      have := ih hx
      simp only [hy, if_false]
      cases hp : pyIndex ys x with
      | none => rw [hp] at this; simp at this
      | some j => simp [hp]

theorem mem_of_pyIndex_isSome {l : List String} {x : String}
    (h : (pyIndex l x).isSome) : x ∈ l := by
  induction l with
  | nil => simp [pyIndex] at h
  | cons y ys ih =>
    simp only [pyIndex] at h
    by_cases hy : y = x
    · exact hy ▸ List.mem_cons_self _ _
    · simp only [hy, if_false] at h
      cases hp : pyIndex ys x with
      | none => rw [hp] at h; simp at h
      | some j => exact List.mem_cons_of_mem _ (ih (by rw [hp]; rfl))

/-- Each bucket keeps only elements of the original list. -/
theorem sortByPreferred_sublist_mem {accessor : α → String} {l : List α}
    {preferred : List String} {x : α} (h : x ∈ sortByPreferred accessor l preferred) :
    x ∈ l := by
  simp only [sortByPreferred, List.mem_flatMap, List.mem_filter] at h
  obtain ⟨j, _, hx, _⟩ := h
  exact hx

theorem count_filter_eq {α : Type} [DecidableEq α] (a : α) (p : α → Bool) (l : List α) :
    (l.filter p).count a = if p a then l.count a else 0 := by
  induction l with
  | nil => simp
  | cons b bs ih =>
    by_cases hpb : p b
    · by_cases hab : b = a
      · subst hab
        simp [List.filter_cons, hpb, List.count_cons, ih]
      · simp [List.filter_cons, hpb, List.count_cons, Ne.symm hab, ih, hab]
    · by_cases hab : b = a
      · subst hab
        simp [List.filter_cons, hpb, List.count_cons, ih]
      · simp [List.filter_cons, hpb, List.count_cons, hab, ih]

theorem count_bind_range {α : Type} [DecidableEq α] (a : α) (f : Nat → List α) :
    ∀ n, ((List.range n).flatMap f).count a = ((List.range n).map (fun j => (f j).count a)).sum := by
  intro n
  induction n with
  | zero => simp
  | succ m ih =>
    simp [List.range_succ, List.count_append, ih]

theorem sum_map_range_indicator (c j n : Nat) (h : j < n) :
    ((List.range n).map (fun i => if i = j then c else 0)).sum = c := by
  induction n with
  | zero => omega
  | succ m ih =>
    rw [List.range_succ, List.map_append, List.sum_append]
    by_cases hjm : j = m
    · subst hjm
      have hz : ((List.range j).map (fun i => if i = j then c else 0)).sum = 0 := by
        apply List.sum_eq_zero
        intro x hx
        simp only [List.mem_map, List.mem_range] at hx
        obtain ⟨i, hi, rfl⟩ := hx
        simp [Nat.ne_of_lt hi]
      simp [hz]
    · have hjlt : j < m := by omega
      have hmj : m ≠ j := fun hmj => hjm hmj.symm
      simp [ih hjlt, hmj]

/-- Permutation: when every element's key occurs in `preferred`, the bucket
sort is a permutation of the input. -/
theorem sortByPreferred_perm {α : Type} [DecidableEq α] (accessor : α → String)
    (l : List α) (preferred : List String)
    (h : ∀ x ∈ l, accessor x ∈ preferred) :
    (sortByPreferred accessor l preferred).Perm l := by
  rw [List.perm_iff_count]
  intro a
  rw [sortByPreferred, count_bind_range]
  by_cases ha : a ∈ l
  · obtain ⟨j, hj⟩ := Option.isSome_iff_exists.mp (pyIndex_isSome_of_mem (h a ha))
    have hjlt : j < preferred.length := pyIndex_lt_length hj
    have key : ∀ i, (l.filter (fun x => pyIndex preferred (accessor x) = some i)).count a
        = if i = j then l.count a else 0 := by
      intro i
      rw [count_filter_eq]
      by_cases hij : i = j
      · subst hij; simp [hj]
      · have : ¬ (pyIndex preferred (accessor a) = some i) := by
          rw [hj]; simp; omega
        simp [this, hij]
    rw [List.map_congr_left (fun i _ => key i)]
    exact sum_map_range_indicator _ j _ hjlt
  · have hcount : l.count a = 0 := List.count_eq_zero.mpr ha
    have key : ∀ i, (l.filter (fun x => pyIndex preferred (accessor x) = some i)).count a = 0 := by
      intro i
      rw [count_filter_eq]
      simp [hcount]
    rw [List.map_congr_left (fun i _ => key i)]
    rw [hcount]
    apply List.sum_eq_zero
    intro x hx
    simp only [List.mem_map, List.mem_range] at hx
    obtain ⟨i, _, rfl⟩ := hx
    rfl

theorem pairwise_of_forall_pairs {α : Type} {R : α → α → Prop} :
    ∀ l : List α, (∀ x ∈ l, ∀ y ∈ l, R x y) → l.Pairwise R
  | [], _ => List.Pairwise.nil
  | a :: l, h =>
    List.Pairwise.cons
      (fun y hy => h a (List.mem_cons_self a l) y (List.mem_cons_of_mem _ hy))
      (pairwise_of_forall_pairs l
        (fun x hx y hy => h x (List.mem_cons_of_mem _ hx) y (List.mem_cons_of_mem _ hy)))

theorem pairwise_flatMap_range {α : Type} {f : Nat → List α} {R : α → α → Prop}
    (hcross : ∀ i k x y, i < k → x ∈ f i → y ∈ f k → R x y)
    (hsame : ∀ i, ∀ x ∈ f i, ∀ y ∈ f i, R x y) :
    ∀ n, ((List.range n).flatMap f).Pairwise R := by
  intro n
  induction n with
  | zero => simp
  | succ m ih =>
    rw [List.range_succ, List.flatMap_append]
    rw [List.pairwise_append]
    refine ⟨ih, ?_, ?_⟩
    · simp only [List.flatMap_cons, List.flatMap_nil, List.append_nil]
      exact pairwise_of_forall_pairs _ (hsame m)
    · intro x hx y hy
      simp only [List.mem_flatMap, List.mem_range] at hx
      simp only [List.flatMap_cons, List.flatMap_nil, List.append_nil] at hy
      obtain ⟨i, hi, hxi⟩ := hx
      exact hcross i m x y hi hxi hy

theorem flatMap_range_single {α : Type} (L : List α) (j : Nat) :
    ∀ n, ((List.range n).flatMap (fun i => if i = j then L else [])) =
      if j < n then L else [] := by
  intro n
  induction n with
  | zero => simp
  | succ m ih =>
    rw [List.range_succ, List.flatMap_append, ih]
    by_cases hjm : j = m
    · subst hjm
      simp [Nat.lt_irrefl]
    · by_cases hlt : j < m
      · have : j < m + 1 := by omega
        have hmj : m ≠ j := fun hmj => hjm hmj.symm
        simp [hlt, this, hmj]
      · have h1 : ¬ j < m + 1 := by omega
        have hmj : m ≠ j := fun hmj => hjm hmj.symm
        simp [hlt, h1, hmj]

theorem flatMap_congr_fn {α β : Type} {l : List α} {f g : α → List β}
    (h : ∀ a ∈ l, f a = g a) : l.flatMap f = l.flatMap g := by
  induction l with
  | nil => rfl
  | cons a as ih =>
    simp only [List.flatMap_cons]
    rw [h a (List.mem_cons_self a as),
      ih (fun b hb => h b (List.mem_cons_of_mem _ hb))]

/-- Stability: the bucket sort preserves, for every key position `j`, the
sublist of elements whose id sits at position `j` of `preferred`. -/
theorem sortByPreferred_filter_eq {α : Type} (accessor : α → String)
    (l : List α) (preferred : List String) (j : Nat) :
    (sortByPreferred accessor l preferred).filter
        (fun x => pyIndex preferred (accessor x) = some j) =
      l.filter (fun x => pyIndex preferred (accessor x) = some j) := by
  rw [sortByPreferred, List.filter_flatMap]
  have hbucket : ∀ i, ((l.filter (fun x => pyIndex preferred (accessor x) = some i)).filter
      (fun x => pyIndex preferred (accessor x) = some j)) =
      if i = j then l.filter (fun x => pyIndex preferred (accessor x) = some j) else [] := by
    intro i
    by_cases hij : i = j
    · subst hij
      rw [if_pos rfl, List.filter_filter]
      apply List.filter_congr
      intro x _
      simp [Bool.and_self]
    · rw [if_neg hij, List.filter_filter]
      apply List.filter_eq_nil_iff.mpr
      intro x _
      simp only [Bool.and_eq_true, decide_eq_true_eq]
      rintro ⟨h1, h2⟩
      rw [h1] at h2
      injection h2 with h3
      exact hij h3.symm
  rw [flatMap_congr_fn (fun i _ => hbucket i), flatMap_range_single]
  by_cases hjl : j < preferred.length
  · rw [if_pos hjl]
  · rw [if_neg hjl]
    symm
    apply List.filter_eq_nil_iff.mpr
    intro x _
    simp only [decide_eq_true_eq]
    intro hx
    exact hjl (pyIndex_lt_length hx)

/-! ### Claim C5: behaviour of the network-ordering routine -/

/-- C5 counterexample: the claim asserts the reordering "is total and never
fails" on elements whose id does not occur in the preferred list; on the
code, `preferred.index` raises `ValueError` for such an element.  Concretely,
a one-element list whose id `"b"` is absent from the preferred list `["a"]`
makes the routine raise instead of leaving the element in place. -/
theorem claim_C5_counterexample :
    ensureRequestedNetworkOrdering (fun s => s) ["b"] ["a"] =
      Except.error NovaError.valueError := rfl

/-- C5 (amended): given a non-empty preferred id list, if every element's id
occurs in the preferred list then the reordering succeeds and returns a
permutation of the input that is sorted by preferred position and keeps
elements with equal ids in their original relative order (stability); if some
element's id does not occur, the routine raises `ValueError` rather than
leaving that element in its original position. -/
theorem claim_C5_ordering {α : Type} [DecidableEq α] (accessor : α → String)
    (l : List α) (preferred : List String) (hpref : preferred ≠ []) :
    ((∀ x ∈ l, accessor x ∈ preferred) →
      ∃ l', ensureRequestedNetworkOrdering accessor l preferred = .ok l' ∧
        l'.Perm l ∧
        (∀ j, l'.filter (fun x => pyIndex preferred (accessor x) = some j)
            = l.filter (fun x => pyIndex preferred (accessor x) = some j)) ∧
        l'.Pairwise (fun x y =>
          (pyIndex preferred (accessor x)).getD 0 ≤ (pyIndex preferred (accessor y)).getD 0))
    ∧ ((∃ x ∈ l, accessor x ∉ preferred) →
      ensureRequestedNetworkOrdering accessor l preferred = .error .valueError) := by
  have hne : preferred.isEmpty = false := by
    cases preferred with
    | nil => exact absurd rfl hpref
    | cons a as => rfl
  constructor
  · intro hall
    have hcheck : l.all (fun x => (pyIndex preferred (accessor x)).isSome) = true := by
      rw [List.all_eq_true]
      intro x hx
      exact pyIndex_isSome_of_mem (hall x hx)
    refine ⟨sortByPreferred accessor l preferred, ?_, ?_, ?_, ?_⟩
    · rw [ensureRequestedNetworkOrdering, hne]
      simp [hcheck]
    · exact sortByPreferred_perm accessor l preferred hall
    · intro j
      exact sortByPreferred_filter_eq accessor l preferred j
    · rw [sortByPreferred]
      apply pairwise_flatMap_range
      · intro i k x y hik hx hy
        rw [List.mem_filter] at hx hy
        have hxi : pyIndex preferred (accessor x) = some i := by
          have := hx.2; simpa using this
        have hyk : pyIndex preferred (accessor y) = some k := by
          have := hy.2; simpa using this
        rw [hxi, hyk]
        exact Nat.le_of_lt hik
      · intro i x hx y hy
        rw [List.mem_filter] at hx hy
        have hxi : pyIndex preferred (accessor x) = some i := by
          have := hx.2; simpa using this
        have hyi : pyIndex preferred (accessor y) = some i := by
          have := hy.2; simpa using this
        rw [hxi, hyi]
  · rintro ⟨x, hx, hnotmem⟩
    have hcheck : l.all (fun x => (pyIndex preferred (accessor x)).isSome) = false := by
      rw [List.all_eq_false]
      refine ⟨x, hx, ?_⟩
      intro hsome
      exact hnotmem (mem_of_pyIndex_isSome hsome)
    rw [ensureRequestedNetworkOrdering, hne]
    simp [hcheck]

/-- C5 witness: the amended ordering theorem instantiated at the concrete
input `l = ["x", "a"]`, `preferred = ["a", "x"]`. -/
theorem claim_C5_ordering_witness :
    ((∀ x ∈ ["x", "a"], (fun s => s) x ∈ ["a", "x"]) →
      ∃ l', ensureRequestedNetworkOrdering (fun s => s) ["x", "a"] ["a", "x"] = .ok l' ∧
        l'.Perm ["x", "a"] ∧
        (∀ j, l'.filter (fun x => pyIndex ["a", "x"] ((fun s => s) x) = some j)
            = ["x", "a"].filter (fun x => pyIndex ["a", "x"] ((fun s => s) x) = some j)) ∧
        l'.Pairwise (fun x y =>
          (pyIndex ["a", "x"] ((fun s => s) x)).getD 0 ≤
            (pyIndex ["a", "x"] ((fun s => s) y)).getD 0))
    ∧ ((∃ x ∈ ["x", "a"], (fun s => s) x ∉ ["a", "x"]) →
      ensureRequestedNetworkOrdering (fun s => s) ["x", "a"] ["a", "x"] = .error .valueError) :=
  claim_C5_ordering (fun s => s) ["x", "a"] ["a", "x"] (by decide)

/-! ### Extension capability cache (`_refresh_quantum_extensions_cache`,
`_has_port_binding_extension`) -/

/-- The process-wide extension cache: `last_quantum_extension_sync` (a float
timestamp, `None` until the first sync) and the extension mapping, collapsed
to the list of cached extension names. -/
structure ExtCache where
  last_sync : Option Int
  extensions : List String
deriving DecidableEq, Repr

/-- Python truthiness of the timestamp: `None` and `0.0` are falsy. -/
def pyTruthyTime : Option Int → Bool
  | none => false
  | some t => t ≠ 0

/-- `PORTBINDING_EXT` from `quantumv2.constants`. -/
def portbindingExt : String := "Port Binding"

/-- `_refresh_quantum_extensions_cache`: query the remote extension list and
replace the cached mapping when the cache was never (truthily) synced or the
sync interval has elapsed; otherwise do nothing.  The returned flag records
whether the remote capability-listing query (`list_extensions`) was issued. -/
def refreshQuantumExtensionsCache (c : ExtCache) (now : Int) (interval : Int)
    (remoteExts : List String) : ExtCache × Bool :=
  if ¬ pyTruthyTime c.last_sync ∨ interval ≤ now - c.last_sync.getD 0 then
    ({ last_sync := some now, extensions := remoteExts }, true)
  else (c, false)

/-- `_has_port_binding_extension(refresh_cache=...)`: optionally refresh, then
test membership of the port-binding extension in the cache.  Returns the
answer, the resulting cache, and whether a remote query was issued. -/
def hasPortBindingExtension (c : ExtCache) (refreshFlag : Bool) (now interval : Int)
    (remoteExts : List String) : Bool × ExtCache × Bool :=
  if refreshFlag then
    let r := refreshQuantumExtensionsCache c now interval remoteExts
    (r.1.extensions.contains portbindingExt, r.1, r.2)
  else (c.extensions.contains portbindingExt, c, false)

/-! ### Claim C9: cache hits within the refresh interval -/

/-- C9: (i) the refresh path issues the remote capability-listing query
exactly when the cache was never (truthily) filled or the configured interval
has elapsed since the recorded sync time; (ii) after a successful refresh at
time `t > 0`, any refresh-path call at a time `t2` with `t2 - t` below the
interval issues no second remote query and leaves the cache unchanged; (iii)
the port-binding check without the refresh flag never queries and never
changes the cache. -/
theorem claim_C9_cache_hit :
    (∀ (c : ExtCache) (now interval : Int) (rem : List String),
      (refreshQuantumExtensionsCache c now interval rem).2 = true ↔
        (¬ pyTruthyTime c.last_sync ∨ interval ≤ now - c.last_sync.getD 0))
    ∧ (∀ (c : ExtCache) (t t2 interval : Int) (rem rem2 : List String),
      0 < t → t2 - t < interval →
      (refreshQuantumExtensionsCache c t interval rem).2 = true →
      refreshQuantumExtensionsCache
          (refreshQuantumExtensionsCache c t interval rem).1 t2 interval rem2 =
        ((refreshQuantumExtensionsCache c t interval rem).1, false))
    ∧ (∀ (c : ExtCache) (now interval : Int) (rem : List String),
      hasPortBindingExtension c false now interval rem =
        (c.extensions.contains portbindingExt, c, false)) := by
  refine ⟨?_, ?_, ?_⟩
  · intro c now interval rem
    rw [refreshQuantumExtensionsCache]
    split
    · next h => exact iff_of_true rfl h
    · next h => exact iff_of_false (by simp) h
  · intro c t t2 interval rem rem2 ht hint hq
    have hfirst : refreshQuantumExtensionsCache c t interval rem =
        ({ last_sync := some t, extensions := rem }, true) := by
      rw [refreshQuantumExtensionsCache] at hq ⊢
      split at hq
      · next h => rw [if_pos h]
      · next h => simp at hq
    have hcond : ¬ (¬ pyTruthyTime (some t) = true ∨
        interval ≤ t2 - (Option.getD (some t) 0)) := by
      push_neg
      constructor
      · simp only [pyTruthyTime]
        simp only [decide_eq_true_eq]
        omega
      · simp only [Option.getD_some]
        omega
    rw [hfirst, refreshQuantumExtensionsCache]
    split
    · next h => exact absurd h hcond
    · rfl
  · intro c now interval rem
    rfl

/-- C9 witness: concrete cache, first refresh at time 100, second call at
time 400 with interval 600 — no second query. -/
theorem claim_C9_cache_hit_witness :
    (refreshQuantumExtensionsCache ⟨none, []⟩ 100 600 ["Port Binding"]).2 = true ∧
    refreshQuantumExtensionsCache
        (refreshQuantumExtensionsCache ⟨none, []⟩ 100 600 ["Port Binding"]).1
        400 600 ["Port Binding"] =
      ((refreshQuantumExtensionsCache ⟨none, []⟩ 100 600 ["Port Binding"]).1, false) :=
  ⟨by decide, claim_C9_cache_hit.2.1 ⟨none, []⟩ 100 400 600 ["Port Binding"] ["Port Binding"]
    (by decide) (by decide) (by decide)⟩

/-! ### Data model of the remote service's record store -/

/-- A `fixed_ips` entry of a port. -/
structure FixedIpEntry where
  subnet_id : String
  ip_address : String
deriving DecidableEq, Repr

/-- A remote port record (the fields the operations read or write). -/
structure QPort where
  id : String
  network_id : String
  mac_address : String
  device_id : Option String
  device_owner : String
  tenant_id : String
  fixed_ips : List FixedIpEntry
  binding_host_id : Option String
  security_groups : List String
  rxtx_factor : Option Nat
  admin_state_up : Bool
deriving DecidableEq, Repr

/-- A remote network record. -/
structure QNetwork where
  id : String
  name : String
  tenant_id : String
  shared : Bool
  subnets : List String
  port_security_enabled : Option Bool
deriving DecidableEq, Repr

/-- A remote floating-IP record. -/
structure QFloatingIp where
  id : String
  floating_ip_address : String
  port_id : Option String
  fixed_ip_address : Option String
deriving DecidableEq, Repr

/-- A remote security-group record. -/
structure SecGroup where
  id : String
  name : String
  tenant_id : String
deriving DecidableEq, Repr

/-- The remote service's record store.  `nextPortId` feeds the id generator
for ports created by `create_port`. -/
structure QState where
  networks : List QNetwork
  ports : List QPort
  floatingips : List QFloatingIp
  security_groups : List SecGroup
  nextPortId : Nat
deriving DecidableEq, Repr

/-- A cached attachment record parsed from the instance's
`info_cache['network_info']`. -/
structure CachedVif where
  id : String
  address : String
  network_id : String
deriving DecidableEq, Repr

/-- The instance fields the operations read. -/
structure Inst where
  uuid : String
  project_id : String
  availability_zone : String
  host : Option String
  rxtx_factor : Option Nat
  cachedVifs : List CachedVif
deriving DecidableEq, Repr

/-- Remote `update_port(pid, body)`: apply the field update to the port(s)
keyed by `pid`. -/
def updatePortState (st : QState) (pid : String) (f : QPort → QPort) : QState :=
  { st with ports := st.ports.map (fun p => if p.id = pid then f p else p) }

/-- Remote `delete_port(pid)`. -/
def deletePortState (st : QState) (pid : String) : QState :=
  { st with ports := st.ports.filter (fun p => p.id ≠ pid) }

/-- Remote `update_floatingip(fid, body)`. -/
def updateFloatingIpState (st : QState) (fid : String) (f : QFloatingIp → QFloatingIp) : QState :=
  { st with floatingips := st.floatingips.map (fun x => if x.id = fid then f x else x) }

/-- Remote `show_port(pid)`: the port record, or the client's 404. -/
def showPort (st : QState) (pid : String) : Except NovaError QPort :=
  match st.ports.find? (fun p => p.id = pid) with
  | some p => .ok p
  | none => .error (.portNotFound pid)

/-- Injected remote-call failures: which forward `update_port`/`create_port`
calls fail (keyed by port id / network id), and which of the rollback
compensation calls fail. -/
structure FailSpec where
  updatePortFails : String → Bool
  createPortFails : String → Bool
  rollbackUpdateFails : String → Bool
  rollbackDeleteFails : String → Bool

/-- The failure specification in which every remote call succeeds. -/
def noFail : FailSpec :=
  ⟨fun _ => false, fun _ => false, fun _ => false, fun _ => false⟩

/-! ### Floating IP operations (`_get_port_id_by_fixed_address`,
`_get_floating_ip_by_address`, `associate_floating_ip`,
`release_floating_ip`) -/

/-- The ports returned by `list_ports(device_id=..., device_owner=...)` in
`_get_port_id_by_fixed_address`. -/
def devOwnerPorts (st : QState) (inst : Inst) : List QPort :=
  st.ports.filter (fun p =>
    p.device_id = some inst.uuid ∧
    p.device_owner = "compute:" ++ inst.availability_zone)

/-- The scan of `_get_port_id_by_fixed_address`: walk the ports, and for each
port carrying the fixed address overwrite `port_id` (the inner `break` only
leaves the fixed-ip loop, so a later matching port replaces an earlier one). -/
def lastMatchingPortId (ports : List QPort) (address : String) : Option String :=
  ports.foldl (fun acc p =>
    if p.fixed_ips.any (fun ip => ip.ip_address = address) then some p.id else acc) none

/-- `_get_port_id_by_fixed_address(client, instance, address)`. -/
def getPortIdByFixedAddress (st : QState) (inst : Inst) (address : String) :
    Except NovaError String :=
  let port_id := lastMatchingPortId (devOwnerPorts st inst) address
  if pyTruthy port_id then .ok (port_id.getD "")
  else .error (.fixedIpNotFoundForAddress address)

/-- The records returned by `list_floatingips(floating_ip_address=address)`. -/
def fipMatches (st : QState) (address : String) : List QFloatingIp :=
  st.floatingips.filter (fun f => f.floating_ip_address = address)

/-- `_get_floating_ip_by_address(client, address)`: zero matches and multiple
matches are distinct errors, one match is returned. -/
def getFloatingIpByAddress (st : QState) (address : String) :
    Except NovaError QFloatingIp :=
  match fipMatches st address with
  | [] => .error (.floatingIpNotFoundForAddress address)
  | [f] => .ok f
  | _ :: _ :: _ => .error (.floatingIpMultipleFoundForAddress address)

/-- `associate_floating_ip(context, instance, floating_address,
fixed_address)`: resolve the port by instance + fixed address, resolve the
floating IP by address, then bind. -/
def associateFloatingIp (st : QState) (inst : Inst)
    (floating_address fixed_address : String) : Except NovaError Unit × QState :=
  match getPortIdByFixedAddress st inst fixed_address with
  | .error e => (.error e, st)
  | .ok pid =>
    match getFloatingIpByAddress st floating_address with
    | .error e => (.error e, st)
    | .ok fip =>
      (.ok (), updateFloatingIpState st fip.id (fun f =>
        { f with port_id := some pid, fixed_ip_address := some fixed_address }))

/-- `release_floating_ip(context, address)`: error while still bound to a
port, otherwise delete the floating-IP record. -/
def releaseFloatingIp (st : QState) (address : String) :
    Except NovaError Unit × QState :=
  match getFloatingIpByAddress st address with
  | .error e => (.error e, st)
  | .ok fip =>
    if pyTruthy fip.port_id then (.error (.floatingIpAssociated address), st)
    else (.ok (), { st with floatingips := st.floatingips.filter (fun f => f.id ≠ fip.id) })

/-! ### Lemmas about the port scan of `_get_port_id_by_fixed_address` -/

theorem foldlLastMatch_of_no_match (address : String) :
    ∀ (ports : List QPort) (acc : Option String),
      (∀ p ∈ ports, p.fixed_ips.any (fun ip => ip.ip_address = address) = false) →
      ports.foldl (fun acc p =>
        if p.fixed_ips.any (fun ip => ip.ip_address = address) then some p.id else acc) acc = acc := by
  intro ports
  induction ports with
  | nil => intro acc _; rfl
  | cons q rest ih =>
    intro acc h
    have hq := h q (List.mem_cons_self q rest)
    rw [List.foldl_cons, if_neg (by simp [hq])]
    exact ih acc (fun p hp => h p (List.mem_cons_of_mem _ hp))

theorem foldlLastMatch_last (address : String) :
    ∀ (ports ms : List QPort) (p : QPort) (acc : Option String),
      ports.filter (fun x => x.fixed_ips.any (fun ip => ip.ip_address = address)) = ms ++ [p] →
      ports.foldl (fun acc p =>
        if p.fixed_ips.any (fun ip => ip.ip_address = address) then some p.id else acc) acc =
        some p.id := by
  intro ports
  induction ports with
  | nil =>
    intro ms p acc h
    simp at h
  | cons q rest ih =>
    intro ms p acc h
    by_cases hq : q.fixed_ips.any (fun ip => ip.ip_address = address)
    · rw [List.filter_cons_of_pos (by simpa using hq)] at h
      simp only [List.foldl_cons, hq, if_pos]
      cases hfr : rest.filter (fun x => x.fixed_ips.any (fun ip => ip.ip_address = address)) with
      | nil =>
        rw [hfr] at h
        cases ms with
        | nil =>
          simp only [List.nil_append] at h
          injection h with h1 h2
          subst h1
          apply foldlLastMatch_of_no_match
          intro x hx
          have := List.filter_eq_nil_iff.mp hfr x hx
          simpa using this
        | cons m ms2 =>
          simp only [List.cons_append] at h
          injection h with h1 h2
          exact absurd h2.symm (by simp)
      | cons r rs =>
        cases ms with
        | nil =>
          simp only [List.nil_append] at h
          injection h with h1 h2
          rw [hfr] at h2
          exact absurd h2.symm (by simp)
        | cons m ms2 =>
          simp only [List.cons_append] at h
          injection h with h1 h2
          exact ih ms2 p _ h2
    · rw [List.filter_cons_of_neg (by simpa using hq)] at h
      rw [List.foldl_cons, if_neg hq]
      exact ih ms p acc h

/-- The matching sublist of the instance's compute-owned ports: the ports the
`_get_port_id_by_fixed_address` scan can record. -/
def portMatches (st : QState) (inst : Inst) (address : String) : List QPort :=
  (devOwnerPorts st inst).filter (fun p => p.fixed_ips.any (fun ip => ip.ip_address = address))

theorem getPortIdByFixedAddress_of_no_match {st : QState} {inst : Inst} {address : String}
    (h : portMatches st inst address = []) :
    getPortIdByFixedAddress st inst address = .error (.fixedIpNotFoundForAddress address) := by
  rw [getPortIdByFixedAddress, lastMatchingPortId]
  rw [foldlLastMatch_of_no_match address _ none
    (fun p hp => by simpa using List.filter_eq_nil_iff.mp h p hp)]
  rfl

theorem getPortIdByFixedAddress_last {st : QState} {inst : Inst} {address : String}
    {ms : List QPort} {p : QPort}
    (h : portMatches st inst address = ms ++ [p]) (hid : p.id ≠ "") :
    getPortIdByFixedAddress st inst address = .ok p.id := by
  rw [getPortIdByFixedAddress, lastMatchingPortId]
  rw [foldlLastMatch_last address _ ms p none h]
  simp [pyTruthy, hid]

/-! ### Claim C7: associate_floating_ip resolution -/

/-- C7 counterexample state: two compute ports of the same instance both
carrying fixed address `10.0.0.5`, and one unbound floating IP `1.2.3.4`. -/
def c7Port1 : QPort :=
  ⟨"p1", "n1", "m1", some "i1", "compute:z", "t", [⟨"s1", "10.0.0.5"⟩], none, [], none, true⟩

def c7Port2 : QPort :=
  ⟨"p2", "n1", "m2", some "i1", "compute:z", "t", [⟨"s1", "10.0.0.5"⟩], none, [], none, true⟩

def c7State : QState :=
  ⟨[], [c7Port1, c7Port2], [⟨"f1", "1.2.3.4", none, none⟩], [], 0⟩

def c7Inst : Inst := ⟨"i1", "t", "z", none, none, []⟩

/-- C7 counterexample: the claim asserts that more than one port matching the
instance + fixed-address lookup is reported as an error; on the code, the
scan's inner `break` only leaves the fixed-ip loop, so with two matching
ports the association succeeds silently, binding the floating IP to the
last-listed matching port (`p2`). -/
theorem claim_C7_counterexample :
    associateFloatingIp c7State c7Inst "1.2.3.4" "10.0.0.5" =
      (.ok (), ⟨[], [c7Port1, c7Port2],
        [⟨"f1", "1.2.3.4", some "p2", some "10.0.0.5"⟩], [], 0⟩) := by rfl

/-- C7 (amended): the floating-IP lookup reports zero matches and multiple
matches as distinct errors; the port lookup reports zero matches as an error
but, when several ports of the instance carry the fixed address, silently
records the last matching port in remote list order; only after both
resolutions does the floating IP get bound, to that last matching port. -/
theorem claim_C7_associate (st : QState) (inst : Inst) (fa xa : String) :
    (portMatches st inst xa = [] →
      associateFloatingIp st inst fa xa = (.error (.fixedIpNotFoundForAddress xa), st))
    ∧ (∀ ms p, portMatches st inst xa = ms ++ [p] → p.id ≠ "" →
        (fipMatches st fa = [] →
          associateFloatingIp st inst fa xa = (.error (.floatingIpNotFoundForAddress fa), st))
        ∧ (∀ f g fs, fipMatches st fa = f :: g :: fs →
          associateFloatingIp st inst fa xa =
            (.error (.floatingIpMultipleFoundForAddress fa), st))
        ∧ (∀ f, fipMatches st fa = [f] →
          associateFloatingIp st inst fa xa = (.ok (), updateFloatingIpState st f.id
            (fun x => { x with port_id := some p.id, fixed_ip_address := some xa })))) := by
  constructor
  · intro h
    rw [associateFloatingIp, getPortIdByFixedAddress_of_no_match h]
  · intro ms p hms hid
    refine ⟨?_, ?_, ?_⟩
    · intro hfip
      rw [associateFloatingIp, getPortIdByFixedAddress_last hms hid,
        getFloatingIpByAddress, hfip]
    · intro f g fs hfip
      rw [associateFloatingIp, getPortIdByFixedAddress_last hms hid,
        getFloatingIpByAddress, hfip]
    · intro f hfip
      rw [associateFloatingIp, getPortIdByFixedAddress_last hms hid,
        getFloatingIpByAddress, hfip]

/-- C7 witness: the amended theorem instantiated at the counterexample state
(matches `[p1] ++ [p2]`, a unique floating IP), giving the successful bind to
the last matching port. -/
theorem claim_C7_associate_witness :
    associateFloatingIp c7State c7Inst "1.2.3.4" "10.0.0.5" =
      (.ok (), updateFloatingIpState c7State "f1"
        (fun x => { x with port_id := some "p2", fixed_ip_address := some "10.0.0.5" })) :=
  ((claim_C7_associate c7State c7Inst "1.2.3.4" "10.0.0.5").2 [c7Port1] c7Port2
    (by decide) (by decide)).2.2 ⟨"f1", "1.2.3.4", none, none⟩ (by decide)

/-! ### Claim C8: release_floating_ip -/

/-- C8: when the address resolves to a unique floating-IP record, release
fails with "floating IP associated" and performs no remote mutation if the
record is bound to a port, and deletes the record if it is unbound. -/
theorem claim_C8_release (st : QState) (addr : String) (f : QFloatingIp)
    (h : fipMatches st addr = [f]) :
    (pyTruthy f.port_id = true →
      releaseFloatingIp st addr = (.error (.floatingIpAssociated addr), st))
    ∧ (pyTruthy f.port_id = false →
      releaseFloatingIp st addr =
        (.ok (), { st with floatingips := st.floatingips.filter (fun x => x.id ≠ f.id) })) := by
  constructor
  · intro hb
    rw [releaseFloatingIp, getFloatingIpByAddress, h]
    simp [hb]
  · intro hb
    rw [releaseFloatingIp, getFloatingIpByAddress, h]
    simp [hb]

/-- C8 witness: a bound floating IP is not deleted (error, state unchanged);
an unbound one is deleted. -/
theorem claim_C8_release_witness :
    ((pyTruthy (QFloatingIp.mk "f1" "1.2.3.4" (some "p1") none).port_id = true →
      releaseFloatingIp ⟨[], [], [⟨"f1", "1.2.3.4", some "p1", none⟩], [], 0⟩ "1.2.3.4" =
        (.error (.floatingIpAssociated "1.2.3.4"),
          ⟨[], [], [⟨"f1", "1.2.3.4", some "p1", none⟩], [], 0⟩))
    ∧ (pyTruthy (QFloatingIp.mk "f1" "1.2.3.4" (some "p1") none).port_id = false →
      releaseFloatingIp ⟨[], [], [⟨"f1", "1.2.3.4", some "p1", none⟩], [], 0⟩ "1.2.3.4" =
        (.ok (), { QState.mk [] [] [⟨"f1", "1.2.3.4", some "p1", none⟩] [] 0 with
          floatingips := [QFloatingIp.mk "f1" "1.2.3.4" (some "p1") none].filter
            (fun x => x.id ≠ "f1") }))) :=
  claim_C8_release ⟨[], [], [⟨"f1", "1.2.3.4", some "p1", none⟩], [], 0⟩ "1.2.3.4"
    ⟨"f1", "1.2.3.4", some "p1", none⟩ (by decide)

/-! ### Claim C10: remove_fixed_ip_from_instance -/

/-- The ports returned by `list_ports(device_id=..., device_owner=...,
fixed_ips='ip_address=<address>')`: the instance's compute-owned ports
carrying the address. -/
def matchingInstancePorts (st : QState) (inst : Inst) (address : String) : List QPort :=
  st.ports.filter (fun p =>
    p.device_id = some inst.uuid ∧
    p.device_owner = "compute:" ++ inst.availability_zone ∧
    p.fixed_ips.any (fun ip => ip.ip_address = address))

/-- `remove_fixed_ip_from_instance(context, instance, address)`: query the
matching ports; raise fixed-IP-not-found when there is none; otherwise
rewrite the first matching port's `fixed_ips` without the address (the
unconditional `return` inside the loop body means only the first port is
examined) and return normally even when the update call fails (the failure is
logged and swallowed). -/
def removeFixedIpFromInstance (spec : FailSpec) (st : QState) (inst : Inst)
    (address : String) : Except NovaError Unit × QState :=
  match matchingInstancePorts st inst address with
  | [] => (.error (.fixedIpNotFoundForSpecificInstance inst.uuid address), st)
  | p :: _ =>
    if spec.updatePortFails p.id then (.ok (), st)
    else (.ok (), updatePortState st p.id (fun q =>
      { q with fixed_ips := p.fixed_ips.filter (fun ip => ip.ip_address ≠ address) }))

/-- C10: the call raises fixed-IP-not-found exactly when no compute-owned
port of the instance carries the address; otherwise it returns normally in
every case — rewriting the first matching port's fixed-IP list when the
single update call succeeds, leaving the state unchanged when that call
fails, and never modifying any port with a different id. -/
theorem claim_C10_remove_fixed_ip (spec : FailSpec) (st : QState) (inst : Inst)
    (address : String) :
    ((removeFixedIpFromInstance spec st inst address).1 =
        .error (.fixedIpNotFoundForSpecificInstance inst.uuid address) ↔
      matchingInstancePorts st inst address = [])
    ∧ (matchingInstancePorts st inst address = [] →
        (removeFixedIpFromInstance spec st inst address).2 = st)
    ∧ (∀ p rest, matchingInstancePorts st inst address = p :: rest →
        (removeFixedIpFromInstance spec st inst address).1 = .ok ()
        ∧ (spec.updatePortFails p.id = true →
            (removeFixedIpFromInstance spec st inst address).2 = st)
        ∧ (spec.updatePortFails p.id = false →
            (removeFixedIpFromInstance spec st inst address).2 =
              updatePortState st p.id (fun q =>
                { q with fixed_ips := p.fixed_ips.filter (fun ip => ip.ip_address ≠ address) }))
        ∧ (∀ q ∈ ((removeFixedIpFromInstance spec st inst address).2).ports,
            q.id ≠ p.id → q ∈ st.ports)) := by
  have hshape : ∀ p rest, matchingInstancePorts st inst address = p :: rest →
      removeFixedIpFromInstance spec st inst address =
        (if spec.updatePortFails p.id then ((.ok (), st) : Except NovaError Unit × QState)
         else (.ok (), updatePortState st p.id (fun q =>
           { q with fixed_ips := p.fixed_ips.filter (fun ip => ip.ip_address ≠ address) }))) := by
    intro p rest hm
    rw [removeFixedIpFromInstance, hm]
  refine ⟨?_, ?_, ?_⟩
  · constructor
    · intro h
      cases hm : matchingInstancePorts st inst address with
      | nil => rfl
      | cons p rest =>
        rw [hshape p rest hm] at h
        by_cases hu : spec.updatePortFails p.id
        · rw [if_pos hu] at h
          exact absurd h (by simp)
        · rw [if_neg hu] at h
          exact absurd h (by simp)
    · intro h
      rw [removeFixedIpFromInstance, h]
  · intro h
    rw [removeFixedIpFromInstance, h]
  · intro p rest hm
    refine ⟨?_, ?_, ?_, ?_⟩
    · rw [hshape p rest hm]
      by_cases hu : spec.updatePortFails p.id
      · rw [if_pos hu]
      · rw [if_neg hu]
    · intro hu
      rw [hshape p rest hm, if_pos hu]
    · intro hu
      rw [hshape p rest hm, if_neg (by simp [hu])]
    · intro q hq hqid
      rw [hshape p rest hm] at hq
      by_cases hu : spec.updatePortFails p.id
      · rw [if_pos hu] at hq
        exact hq
      · rw [if_neg hu] at hq
        simp only [updatePortState, List.mem_map] at hq
        obtain ⟨r, hr, hrq⟩ := hq
        by_cases hrid : r.id = p.id
        · rw [if_pos hrid] at hrq
          have : q.id = p.id := by
            rw [← hrq]
            exact hrid
          exact absurd this hqid
        · rw [if_neg hrid] at hrq
          rw [← hrq]
          exact hr

/-- C10 witness: one matching port `pA` and one other port `pB`; with the
update succeeding the first port's fixed-ip list is rewritten; instantiation
of the claim at that state. -/
theorem claim_C10_remove_fixed_ip_witness :
    ((removeFixedIpFromInstance noFail
        ⟨[], [⟨"pA", "n1", "m1", some "i1", "compute:z", "t",
                [⟨"s1", "10.0.0.5"⟩, ⟨"s1", "10.0.0.6"⟩], none, [], none, true⟩], [], [], 0⟩
        ⟨"i1", "t", "z", none, none, []⟩ "10.0.0.5").1 =
          .error (.fixedIpNotFoundForSpecificInstance "i1" "10.0.0.5") ↔
      matchingInstancePorts
        ⟨[], [⟨"pA", "n1", "m1", some "i1", "compute:z", "t",
                [⟨"s1", "10.0.0.5"⟩, ⟨"s1", "10.0.0.6"⟩], none, [], none, true⟩], [], [], 0⟩
        ⟨"i1", "t", "z", none, none, []⟩ "10.0.0.5" = [])
    ∧ (matchingInstancePorts
        ⟨[], [⟨"pA", "n1", "m1", some "i1", "compute:z", "t",
                [⟨"s1", "10.0.0.5"⟩, ⟨"s1", "10.0.0.6"⟩], none, [], none, true⟩], [], [], 0⟩
        ⟨"i1", "t", "z", none, none, []⟩ "10.0.0.5" = [] →
        (removeFixedIpFromInstance noFail
          ⟨[], [⟨"pA", "n1", "m1", some "i1", "compute:z", "t",
                  [⟨"s1", "10.0.0.5"⟩, ⟨"s1", "10.0.0.6"⟩], none, [], none, true⟩], [], [], 0⟩
          ⟨"i1", "t", "z", none, none, []⟩ "10.0.0.5").2 =
          ⟨[], [⟨"pA", "n1", "m1", some "i1", "compute:z", "t",
                  [⟨"s1", "10.0.0.5"⟩, ⟨"s1", "10.0.0.6"⟩], none, [], none, true⟩], [], [], 0⟩)
    ∧ (∀ p rest, matchingInstancePorts
        ⟨[], [⟨"pA", "n1", "m1", some "i1", "compute:z", "t",
                [⟨"s1", "10.0.0.5"⟩, ⟨"s1", "10.0.0.6"⟩], none, [], none, true⟩], [], [], 0⟩
        ⟨"i1", "t", "z", none, none, []⟩ "10.0.0.5" = p :: rest →
        (removeFixedIpFromInstance noFail
          ⟨[], [⟨"pA", "n1", "m1", some "i1", "compute:z", "t",
                  [⟨"s1", "10.0.0.5"⟩, ⟨"s1", "10.0.0.6"⟩], none, [], none, true⟩], [], [], 0⟩
          ⟨"i1", "t", "z", none, none, []⟩ "10.0.0.5").1 = .ok ()
        ∧ (noFail.updatePortFails p.id = true →
            (removeFixedIpFromInstance noFail
              ⟨[], [⟨"pA", "n1", "m1", some "i1", "compute:z", "t",
                      [⟨"s1", "10.0.0.5"⟩, ⟨"s1", "10.0.0.6"⟩], none, [], none, true⟩], [], [], 0⟩
              ⟨"i1", "t", "z", none, none, []⟩ "10.0.0.5").2 =
              ⟨[], [⟨"pA", "n1", "m1", some "i1", "compute:z", "t",
                      [⟨"s1", "10.0.0.5"⟩, ⟨"s1", "10.0.0.6"⟩], none, [], none, true⟩], [], [], 0⟩)
        ∧ (noFail.updatePortFails p.id = false →
            (removeFixedIpFromInstance noFail
              ⟨[], [⟨"pA", "n1", "m1", some "i1", "compute:z", "t",
                      [⟨"s1", "10.0.0.5"⟩, ⟨"s1", "10.0.0.6"⟩], none, [], none, true⟩], [], [], 0⟩
              ⟨"i1", "t", "z", none, none, []⟩ "10.0.0.5").2 =
              updatePortState
                ⟨[], [⟨"pA", "n1", "m1", some "i1", "compute:z", "t",
                        [⟨"s1", "10.0.0.5"⟩, ⟨"s1", "10.0.0.6"⟩], none, [], none, true⟩], [], [], 0⟩
                p.id (fun q =>
                  { q with fixed_ips := p.fixed_ips.filter (fun ip => ip.ip_address ≠ "10.0.0.5") }))
        ∧ (∀ q ∈ ((removeFixedIpFromInstance noFail
              ⟨[], [⟨"pA", "n1", "m1", some "i1", "compute:z", "t",
                      [⟨"s1", "10.0.0.5"⟩, ⟨"s1", "10.0.0.6"⟩], none, [], none, true⟩], [], [], 0⟩
              ⟨"i1", "t", "z", none, none, []⟩ "10.0.0.5").2).ports,
            q.id ≠ p.id → q ∈ (QState.mk [] [⟨"pA", "n1", "m1", some "i1", "compute:z", "t",
                      [⟨"s1", "10.0.0.5"⟩, ⟨"s1", "10.0.0.6"⟩], none, [], none, true⟩] [] [] 0).ports)) :=
  claim_C10_remove_fixed_ip noFail
    ⟨[], [⟨"pA", "n1", "m1", some "i1", "compute:z", "t",
            [⟨"s1", "10.0.0.5"⟩, ⟨"s1", "10.0.0.6"⟩], none, [], none, true⟩], [], [], 0⟩
    ⟨"i1", "t", "z", none, none, []⟩ "10.0.0.5"

/-! ### Security-group resolution (allocate_for_instance, name/uuid matching) -/

/-- The inner scan over the tenant's groups for one requested entry: track
`name_match` / `uuid_match` as the source loop does: a name match while
`name_match` is already truthy raises "no unique match" (before the uuid
check of that iteration); a name match records the group's id in
`name_match`; an id match records it in `uuid_match`. -/
def scanSecGroups (entry : String) : List SecGroup → Option String → Option String →
    Except NovaError (Option String × Option String)
  | [], nm, um => .ok (nm, um)
  | g :: gs, nm, um =>
    if g.name = entry then
      if pyTruthy nm then .error .noUniqueMatch
      else scanSecGroups entry gs (some g.id) (if g.id = entry then some g.id else um)
    else scanSecGroups entry gs nm (if g.id = entry then some g.id else um)

/-- The per-entry decision after the scan: unmatched raises "not found" (the
source's append after that raise is dead code and is dropped); a truthy name
match takes priority over a uuid match. -/
def resolveSecGroupEntry (groups : List SecGroup) (entry : String) :
    Except NovaError String :=
  match scanSecGroups entry groups none none with
  | .error e => .error e
  | .ok (nm, um) =>
    if ¬ pyTruthy nm ∧ ¬ pyTruthy um then .error (.securityGroupNotFound entry)
    else if pyTruthy nm then .ok (nm.getD "")
    else .ok (um.getD "")

/-- The resolution loop over all requested entries, in order, building
`security_group_ids`. -/
def resolveSecurityGroups (groups : List SecGroup) : List String → Except NovaError (List String)
  | [] => .ok []
  | e :: es =>
    match resolveSecGroupEntry groups e with
    | .error err => .error err
    | .ok gid =>
      match resolveSecurityGroups groups es with
      | .error err => .error err
      | .ok rest => .ok (gid :: rest)

theorem scanSecGroups_noUnique_of_truthy (entry : String) :
    ∀ (gs : List SecGroup) (nm um : Option String),
      pyTruthy nm = true → (∃ g ∈ gs, g.name = entry) →
      scanSecGroups entry gs nm um = .error .noUniqueMatch := by
  intro gs
  induction gs with
  | nil =>
    intro nm um _ h
    simp at h
  | cons g rest ih =>
    intro nm um hnm h
    rw [scanSecGroups]
    by_cases hg : g.name = entry
    · rw [if_pos hg, if_pos hnm]
    · rw [if_neg hg]
      apply ih nm _ hnm
      rcases h with ⟨g', hg', hname⟩
      rcases List.mem_cons.mp hg' with rfl | hmem
      · exact absurd hname hg
      · exact ⟨g', hmem, hname⟩

theorem scanSecGroups_noUnique_of_two (entry : String) :
    ∀ (gs : List SecGroup) (nm um : Option String),
      (∀ g ∈ gs, g.id ≠ "") →
      2 ≤ gs.countP (fun g => g.name = entry) →
      scanSecGroups entry gs nm um = .error .noUniqueMatch := by
  intro gs
  induction gs with
  | nil =>
    intro nm um _ h
    simp [List.countP_nil] at h
  | cons g rest ih =>
    intro nm um hids h
    rw [scanSecGroups]
    by_cases hg : g.name = entry
    · rw [if_pos hg]
      by_cases hnm : pyTruthy nm
      · rw [if_pos hnm]
      · rw [if_neg hnm]
        have hid : g.id ≠ "" := hids g (List.mem_cons_self g rest)
        have htruthy : pyTruthy (some g.id) = true := by
          simp [pyTruthy, hid]
        apply scanSecGroups_noUnique_of_truthy entry rest _ _ htruthy
        have hc : rest.countP (fun g => g.name = entry) ≥ 1 := by
          rw [List.countP_cons_of_pos _ _ (by simpa using hg)] at h
          omega
        obtain ⟨g', hg', hname⟩ := List.countP_pos_iff.mp (by omega : 0 < rest.countP (fun g => g.name = entry))
        exact ⟨g', hg', by simpa using hname⟩
    · rw [if_neg hg]
      apply ih _ _ (fun x hx => hids x (List.mem_cons_of_mem _ hx))
      rw [List.countP_cons_of_neg _ _ (by simpa using hg)] at h
      exact h

theorem scanSecGroups_of_no_match (entry : String) :
    ∀ (gs : List SecGroup) (nm um : Option String),
      (∀ g ∈ gs, g.name ≠ entry ∧ g.id ≠ entry) →
      scanSecGroups entry gs nm um = .ok (nm, um) := by
  intro gs
  induction gs with
  | nil => intro nm um _; rfl
  | cons g rest ih =>
    intro nm um h
    have hg := h g (List.mem_cons_self g rest)
    rw [scanSecGroups, if_neg hg.1, if_neg hg.2]
    exact ih nm um (fun x hx => h x (List.mem_cons_of_mem _ hx))

theorem scanSecGroups_of_no_name_match (entry : String) :
    ∀ (gs : List SecGroup) (nm um : Option String),
      (∀ g ∈ gs, g.name ≠ entry) →
      ∃ um2, scanSecGroups entry gs nm um = .ok (nm, um2) := by
  intro gs
  induction gs with
  | nil => intro nm um _; exact ⟨um, rfl⟩
  | cons g rest ih =>
    intro nm um h
    rw [scanSecGroups, if_neg (h g (List.mem_cons_self g rest))]
    exact ih nm _ (fun x hx => h x (List.mem_cons_of_mem _ hx))

theorem scanSecGroups_unique_name (entry : String) :
    ∀ (gs : List SecGroup) (nm um : Option String) (g0 : SecGroup),
      gs.filter (fun g => g.name = entry) = [g0] →
      pyTruthy nm = false →
      ∃ um2, scanSecGroups entry gs nm um = .ok (some g0.id, um2) := by
  intro gs
  induction gs with
  | nil =>
    intro nm um g0 h
    simp at h
  | cons g rest ih =>
    intro nm um g0 h hnm
    by_cases hg : g.name = entry
    · rw [List.filter_cons_of_pos (by simpa using hg)] at h
      injection h with h1 h2
      subst h1
      rw [scanSecGroups, if_pos hg, if_neg (by simp [hnm])]
      apply scanSecGroups_of_no_name_match
      intro x hx
      have := List.filter_eq_nil_iff.mp h2 x hx
      simpa using this
    · rw [List.filter_cons_of_neg (by simpa using hg)] at h
      rw [scanSecGroups, if_neg hg]
      exact ih nm _ g0 h hnm

/-! ### Claim C3: security-group matching rules -/

/-- C3: for a requested security-group entry resolved against the tenant's
groups (whose ids are non-empty strings): (i) if the entry equals the name of
two or more groups, resolution raises "no unique match"; (ii) if it equals no
group's name and no group's id, resolution raises "security group not found";
(iii) if exactly one group carries the entry as its name, that group's id is
the one recorded — even when some other group's id equals the entry (name
match wins over uuid match). -/
theorem claim_C3_secgroup_resolution (groups : List SecGroup) (entry : String)
    (hids : ∀ g ∈ groups, g.id ≠ "") :
    (2 ≤ groups.countP (fun g => g.name = entry) →
      resolveSecurityGroups groups [entry] = .error .noUniqueMatch)
    ∧ ((∀ g ∈ groups, g.name ≠ entry ∧ g.id ≠ entry) →
      resolveSecurityGroups groups [entry] = .error (.securityGroupNotFound entry))
    ∧ (∀ g0, groups.filter (fun g => g.name = entry) = [g0] →
      resolveSecurityGroups groups [entry] = .ok [g0.id]) := by
  refine ⟨?_, ?_, ?_⟩
  · intro h
    rw [resolveSecurityGroups, resolveSecGroupEntry,
      scanSecGroups_noUnique_of_two entry groups none none hids h]
  · intro h
    rw [resolveSecurityGroups, resolveSecGroupEntry,
      scanSecGroups_of_no_match entry groups none none h]
    simp [pyTruthy]
  · intro g0 h
    have hg0mem : g0 ∈ groups := by
      have : g0 ∈ groups.filter (fun g => g.name = entry) := by
        rw [h]; exact List.mem_singleton.mpr rfl
      exact List.mem_of_mem_filter this
    have hid : g0.id ≠ "" := hids g0 hg0mem
    obtain ⟨um2, hscan⟩ :=
      scanSecGroups_unique_name entry groups none none g0 h rfl
    have htruthy : pyTruthy (some g0.id) = true := by
      simp [pyTruthy, hid]
    rw [resolveSecurityGroups, resolveSecGroupEntry, hscan]
    simp [htruthy, resolveSecurityGroups]

/-- C3 witness: the boundary scenario — a group named `N` with id `u1`, and a
second group whose id is literally `N`; the name match wins and `u1` is
recorded; plus the non-unique and not-found conjuncts at the same input. -/
theorem claim_C3_secgroup_resolution_witness :
    (2 ≤ ([⟨"u1", "N", "t"⟩, ⟨"N", "M", "t"⟩] : List SecGroup).countP (fun g => g.name = "N") →
      resolveSecurityGroups [⟨"u1", "N", "t"⟩, ⟨"N", "M", "t"⟩] ["N"] = .error .noUniqueMatch)
    ∧ ((∀ g ∈ ([⟨"u1", "N", "t"⟩, ⟨"N", "M", "t"⟩] : List SecGroup), g.name ≠ "N" ∧ g.id ≠ "N") →
      resolveSecurityGroups [⟨"u1", "N", "t"⟩, ⟨"N", "M", "t"⟩] ["N"] =
        .error (.securityGroupNotFound "N"))
    ∧ (∀ g0, ([⟨"u1", "N", "t"⟩, ⟨"N", "M", "t"⟩] : List SecGroup).filter
          (fun g => g.name = "N") = [g0] →
      resolveSecurityGroups [⟨"u1", "N", "t"⟩, ⟨"N", "M", "t"⟩] ["N"] = .ok [g0.id]) :=
  claim_C3_secgroup_resolution [⟨"u1", "N", "t"⟩, ⟨"N", "M", "t"⟩] "N" (by decide)

/-! ### allocate_for_instance: request parsing, network selection, the
allocation loop and its rollback -/

/-- One entry of `requested_networks`: (network id, fixed ip, port id). -/
structure ReqNet where
  net_id : Option String
  fixed_ip : Option String
  port_id : Option String
deriving DecidableEq, Repr

/-- Ambient configuration of one call: which optional remote capabilities the
extension cache reports (port binding, nvp-qos), and the remote service's
port-id generator for `create_port`. -/
structure Env where
  hasPortBinding : Bool
  hasQos : Bool
  genPortId : Nat → String

/-- Python dict lookup on an association list. -/
def assocLookup (l : List (String × α)) (k : String) : Option α :=
  (l.find? (fun kv => kv.1 = k)).map (fun kv => kv.2)

/-- Python dict assignment on an association list: replace in place or
append. -/
def assocUpsert (l : List (String × α)) (k : String) (v : α) : List (String × α) :=
  if l.any (fun kv => kv.1 = k) then
    l.map (fun kv => if kv.1 = k then (k, v) else kv)
  else l ++ [(k, v)]

/-- The parse of `requested_networks` at the top of `allocate_for_instance`:
an entry with a port id fetches the port (`show_port`), checks its MAC
against the hypervisor MAC set (raising "port not usable" on a miss,
discarding the MAC from the still-available pool on a hit), derives the
network id from the port and records the port per network id; an entry with
only a fixed ip and network id records the fixed ip per network id; truthy
network ids accumulate into `net_ids` in request order.  Python's set of
still-available MACs is determinised as a deduplicated list (`discard`
filters, `pop` takes the head). -/
def parseRequested (st : QState) (hvMacs : Option (List String)) :
    List ReqNet → List (String × QPort) → List (String × String) → List String →
    Option (List String) →
    Except NovaError (List (String × QPort) × List (String × String) × List String ×
      Option (List String))
  | [], pm, fim, nids, am => .ok (pm, fim, nids, am)
  | r :: rs, pm, fim, nids, am =>
    if pyTruthy r.port_id then
      match showPort st (r.port_id.getD "") with
      | .error e => .error e
      | .ok port =>
        match hvMacs with
        | some macs =>
          if port.mac_address ∈ macs then
            parseRequested st hvMacs rs (assocUpsert pm port.network_id port) fim
              (if port.network_id ≠ "" then nids ++ [port.network_id] else nids)
              (am.map (List.filter (fun m => m ≠ port.mac_address)))
          else .error (.portNotUsable (r.port_id.getD ""))
        | none =>
          parseRequested st hvMacs rs (assocUpsert pm port.network_id port) fim
            (if port.network_id ≠ "" then nids ++ [port.network_id] else nids) am
    else if pyTruthy r.fixed_ip ∧ pyTruthy r.net_id then
      parseRequested st hvMacs rs pm
        (assocUpsert fim (r.net_id.getD "") (r.fixed_ip.getD ""))
        (if pyTruthy r.net_id then nids ++ [r.net_id.getD ""] else nids) am
    else
      parseRequested st hvMacs rs pm fim
        (if pyTruthy r.net_id then nids ++ [r.net_id.getD ""] else nids) am

/-- The unordered candidate list of `_get_available_networks`: tenant-owned
non-shared networks, then shared networks, both id-filtered when requested
ids were given. -/
def availCandidates (st : QState) (project_id : String) (net_ids : List String) :
    List QNetwork :=
  st.networks.filter (fun n =>
    decide (n.tenant_id = project_id) && !n.shared &&
      (net_ids.isEmpty || net_ids.contains n.id)) ++
    st.networks.filter (fun n => n.shared && (net_ids.isEmpty || net_ids.contains n.id))

/-- `_get_available_networks`: the candidate list, reordered to the requested
ordering. -/
def getAvailableNetworks (st : QState) (project_id : String) (net_ids : List String) :
    Except NovaError (List QNetwork) :=
  ensureRequestedNetworkOrdering (fun n => n.id) (availCandidates st project_id net_ids)
    net_ids

/-- `list_security_groups(tenant_id=...)`. -/
def listSecurityGroups (st : QState) (tenant : String) : List SecGroup :=
  st.security_groups.filter (fun g => decide (g.tenant_id = tenant))

/-- A successful guarded step either reused (touched) or created a port. -/
inductive StepOutcome where
  | touchedPort (pid : String)
  | createdPort (pid : String)
deriving DecidableEq, Repr

/-- The `compute:<availability-zone>` device-owner tag. -/
def zoneOf (inst : Inst) : String := "compute:" ++ inst.availability_zone

/-- The port update body of the reuse path (device binding plus the
capability-dependent extension fields populated by
`_populate_quantum_extension_values`). -/
def applyTouchBody (env : Env) (inst : Inst) (q : QPort) : QPort :=
  let q1 := { q with device_id := some inst.uuid, device_owner := zoneOf inst }
  let q2 := if env.hasQos then { q1 with rxtx_factor := inst.rxtx_factor } else q1
  if env.hasPortBinding then { q2 with binding_host_id := inst.host } else q2

/-- The port record the remote service stores for the create path's request
body: device binding, tenant, admin-state, the requested fixed ip when one
was recorded, the resolved security-group ids, the pinned MAC when one was
popped (a remote-assigned address otherwise), and the capability-dependent
extension fields. -/
def createdPortBody (env : Env) (inst : Inst) (sgIds : List String)
    (fim : List (String × String)) (net : QNetwork) (macOpt : Option String)
    (st : QState) : QPort :=
  { id := env.genPortId st.nextPortId
    network_id := net.id
    mac_address := macOpt.getD "remote-assigned-mac"
    device_id := some inst.uuid
    device_owner := zoneOf inst
    tenant_id := inst.project_id
    fixed_ips :=
      match assocLookup fim net.id with
      | some fip => if fip ≠ "" then [⟨"", fip⟩] else []
      | none => []
    binding_host_id := if env.hasPortBinding then inst.host else none
    security_groups := sgIds
    rxtx_factor := if env.hasQos then inst.rxtx_factor else none
    admin_state_up := true }

/-- One guarded per-network step (the body of the per-network `try`):
reuse path updates the pre-supplied port's binding; create path builds the
port request (fixed ip, security groups, a popped MAC when a pool was
supplied — raising "no free MAC" on exhaustion) and creates the port. -/
def guardedStep (env : Env) (spec : FailSpec) (inst : Inst) (sgIds : List String)
    (pm : List (String × QPort)) (fim : List (String × String))
    (net : QNetwork) (am : Option (List String)) (st : QState) :
    Except NovaError (Option (List String) × StepOutcome × QState) :=
  match assocLookup pm net.id with
  | some port =>
    if spec.updatePortFails port.id then .error (.remoteError "update_port")
    else .ok (am, .touchedPort port.id,
      updatePortState st port.id (applyTouchBody env inst))
  | none =>
    match am with
    | some [] => .error .portNotFree
    | some (m :: ms) => createOnNet env spec inst sgIds fim net (some m) (some ms) st
    | none => createOnNet env spec inst sgIds fim net none none st
where
  /-- The create path: issue `create_port` with the assembled body. -/
  createOnNet (env : Env) (spec : FailSpec) (inst : Inst) (sgIds : List String)
      (fim : List (String × String)) (net : QNetwork)
      (macOpt : Option String) (am2 : Option (List String)) (st : QState) :
      Except NovaError (Option (List String) × StepOutcome × QState) :=
    if spec.createPortFails net.id then .error (.remoteError "create_port")
    else
      let newPort := createdPortBody env inst sgIds fim net macOpt st
      .ok (am2, .createdPort newPort.id,
        { st with ports := st.ports ++ [newPort], nextPortId := st.nextPortId + 1 })

/-- The rollback port body: `device_id = None`, plus `binding:host_id = None`
(set through an elevated client) when the port-binding capability is
present. -/
def clearBindingBody (env : Env) (q : QPort) : QPort :=
  let q1 := { q with device_id := none }
  if env.hasPortBinding then { q1 with binding_host_id := none } else q1

/-- One touched-port compensation call, its own failure swallowed. -/
def rollbackUpdateStep (env : Env) (spec : FailSpec) (s : QState) (pid : String) : QState :=
  if spec.rollbackUpdateFails pid then s
  else updatePortState s pid (clearBindingBody env)

/-- One created-port compensation call, its own failure swallowed. -/
def rollbackDeleteStep (spec : FailSpec) (s : QState) (pid : String) : QState :=
  if spec.rollbackDeleteFails pid then s else deletePortState s pid

/-- The rollback body of the per-network `except` clause: clear each touched
port's device binding, then delete each created port; every compensation
call's own failure is logged and swallowed, never raised, so the original
error is always the one re-raised. -/
def rollbackApply (env : Env) (spec : FailSpec) (touched created : List String)
    (st : QState) : QState :=
  created.foldl (rollbackDeleteStep spec)
    (touched.foldl (rollbackUpdateStep env spec) st)

/-- The per-network loop of `allocate_for_instance`.  The security-group
applicability check raises outside the guarded block, so it propagates
without compensation; any failure inside the guarded step triggers the
rollback over the so-far accumulated touched/created ids, after which the
original error is re-raised unchanged. -/
def processNets (env : Env) (spec : FailSpec) (inst : Inst)
    (secGroups sgIds : List String)
    (pm : List (String × QPort)) (fim : List (String × String)) :
    List QNetwork → Option (List String) → List String → List String → QState →
    Except NovaError (List String × List String) × QState
  | [], _, touched, created, st => (.ok (touched, created), st)
  | net :: rest, am, touched, created, st =>
    if secGroups ≠ [] ∧ ¬ (net.subnets ≠ [] ∧ net.port_security_enabled.getD true) then
      (.error .securityGroupCannotBeApplied, st)
    else
      match guardedStep env spec inst sgIds pm fim net am st with
      | .error e => (.error e, rollbackApply env spec touched created st)
      | .ok (am2, .touchedPort pid, st2) =>
        processNets env spec inst secGroups sgIds pm fim rest am2 (touched ++ [pid]) created st2
      | .ok (am2, .createdPort pid, st2) =>
        processNets env spec inst secGroups sgIds pm fim rest am2 touched (created ++ [pid]) st2

/-- An attachment record of the network-info snapshot (the fields the
properties mention; fixed/floating address and subnet enrichment carries no
ordering or membership information and is elided). -/
structure VIF where
  id : String
  address : String
  network_id : String
  network_label : String
deriving DecidableEq, Repr

/-- `list_ports(tenant_id=..., device_id=...)` issued with the
administrative client by `_build_network_info_model`. -/
def instDevicePorts (st : QState) (inst : Inst) : List QPort :=
  st.ports.filter (fun p =>
    decide (p.tenant_id = inst.project_id) && decide (p.device_id = some inst.uuid))

/-- The attachment records seeded from the instance's cached interfaces. -/
def cachedSeed (inst : Inst) : List VIF :=
  inst.cachedVifs.map (fun v => VIF.mk v.id v.address v.network_id "")

/-- One attachment record for a remote port (the network-name scan of the
loop body; for a port on one of the supplied networks the lookup always
finds the network). -/
def mkVif (networks : List QNetwork) (p : QPort) : VIF :=
  VIF.mk p.id p.mac_address p.network_id
    (((networks.find? (fun n => n.id = p.network_id)).map (fun n => n.name)).getD "")

/-- `_build_network_info_model(context, instance, networks)` for the
supplied-networks path used by `allocate_for_instance`: seed the output with
the instance's cached attachment records (so existing interfaces are not
dropped), list the instance's ports with an administrative client, keep those
on the supplied networks, reorder them to the networks' order, and append one
attachment record per port. -/
def buildNetworkInfoModel (st : QState) (inst : Inst) (networks : List QNetwork) :
    Except NovaError (List VIF) :=
  match ensureRequestedNetworkOrdering (fun p : QPort => p.network_id)
      ((instDevicePorts st inst).filter (fun p =>
        (networks.map (fun n => n.id)).contains p.network_id))
      (networks.map (fun n => n.id)) with
  | .error e => .error e
  | .ok sorted => .ok (cachedSeed inst ++ sorted.map (mkVif networks))

/-- The tail of `allocate_for_instance` after a successful loop: rebuild the
info model and return only the records whose port id was created or touched
by this call. -/
def allocateFinish (inst : Inst) (nets : List QNetwork)
    (touched created : List String) (st2 : QState) :
    Except NovaError (List VIF) × QState :=
  match buildNetworkInfoModel st2 inst nets with
  | .error e => (.error e, st2)
  | .ok vifs => (.ok (vifs.filter (fun v => (created ++ touched).contains v.id)), st2)

/-- `allocate_for_instance` from the per-network loop onwards. -/
def allocateLoop (env : Env) (spec : FailSpec) (inst : Inst)
    (security_groups sgIds : List String)
    (pm : List (String × QPort)) (fim : List (String × String))
    (am : Option (List String)) (nets : List QNetwork) (st : QState) :
    Except NovaError (List VIF) × QState :=
  match processNets env spec inst security_groups sgIds pm fim nets am [] [] st with
  | (.error e, st2) => (.error e, st2)
  | (.ok (touched, created), st2) => allocateFinish inst nets touched created st2

/-- `allocate_for_instance` from the security-group resolution onwards. -/
def allocateWithNets (env : Env) (spec : FailSpec) (inst : Inst)
    (security_groups : List String)
    (pm : List (String × QPort)) (fim : List (String × String))
    (am : Option (List String)) (nets : List QNetwork) (st : QState) :
    Except NovaError (List VIF) × QState :=
  match resolveSecurityGroups (listSecurityGroups st inst.project_id) security_groups with
  | .error e => (.error e, st)
  | .ok sgIds => allocateLoop env spec inst security_groups sgIds pm fim am nets st

/-- `allocate_for_instance` from the network resolution onwards. -/
def allocateAfterParse (env : Env) (spec : FailSpec) (inst : Inst)
    (security_groups : List String)
    (pm : List (String × QPort)) (fim : List (String × String))
    (netIds : List String) (am : Option (List String)) (st : QState) :
    Except NovaError (List VIF) × QState :=
  match getAvailableNetworks st inst.project_id netIds with
  | .error e => (.error e, st)
  | .ok nets => allocateWithNets env spec inst security_groups pm fim am nets st

/-- `allocate_for_instance(context, instance, requested_networks=...,
macs=..., security_groups=...)`: parse the request, resolve the available
networks and the security groups, run the per-network allocation loop, then
rebuild the info model and return only the records whose port was touched or
created by this call. -/
def allocateForInstance (env : Env) (spec : FailSpec) (inst : Inst)
    (requested_networks : Option (List ReqNet)) (hypervisor_macs : Option (List String))
    (security_groups : List String) (st : QState) :
    Except NovaError (List VIF) × QState :=
  if inst.project_id = "" then (.error .invalidInput, st)
  else
    match parseRequested st hypervisor_macs (requested_networks.getD []) [] [] []
        (hypervisor_macs.map List.dedup) with
    | .error e => (.error e, st)
    | .ok (pm, fim, netIds, am) =>
      allocateAfterParse env spec inst security_groups pm fim netIds am st

/-! ### Concrete scenario: two requested networks, second one without
subnets, one security group -/

/-- Environment with no optional capabilities and a concrete port-id
generator. -/
def cxEnv : Env := ⟨false, false, fun n => "newport" ++ String.mk (List.replicate n 'x')⟩

def cxNetA : QNetwork := ⟨"nA", "netA", "t", false, ["subA"], none⟩

/-- A resolved network with no subnets. -/
def cxNetB : QNetwork := ⟨"nB", "netB", "t", false, [], none⟩

def cxInst : Inst := ⟨"i1", "t", "z", none, none, []⟩

def cxState : QState := ⟨[cxNetA, cxNetB], [], [], [⟨"g1", "sg1", "t"⟩], 0⟩

def cxReqs : List ReqNet := [⟨some "nA", none, none⟩, ⟨some "nB", none, none⟩]

/-- The port the scenario's first iteration creates on `nA`. -/
def cxCreatedPort : QPort :=
  ⟨"newport", "nA", "remote-assigned-mac", some "i1", "compute:z", "t", [], none,
    ["g1"], none, true⟩

/-- C1 counterexample: a per-network step (the security-group applicability
check at the second network) raises after a port was created at the first
network, and the error propagates with NO compensation: the created port is
still present, still bound to the instance, in the final state. -/
theorem claim_C1_counterexample :
    (allocateForInstance cxEnv noFail cxInst (some cxReqs) none ["sg1"] cxState).1 =
        .error .securityGroupCannotBeApplied
    ∧ (allocateForInstance cxEnv noFail cxInst (some cxReqs) none ["sg1"] cxState).2.ports =
        [cxCreatedPort]
    ∧ cxCreatedPort.device_id = some cxInst.uuid := by
  refine ⟨rfl, rfl, rfl⟩

/-- C2 counterexample: with a non-empty security-group list and a resolved
network (`nB`, no subnets) failing the applicability check, the call does
fail with "security group cannot be applied" — but NOT before a port has
been created: the check runs per network inside the loop, after the first
network's port creation. -/
theorem claim_C2_counterexample :
    allocateForInstance cxEnv noFail cxInst (some cxReqs) none ["sg1"] cxState =
      (.error .securityGroupCannotBeApplied,
        ⟨[cxNetA, cxNetB], [cxCreatedPort], [], [⟨"g1", "sg1", "t"⟩], 1⟩) := by
  rfl

/-- C6 counterexample: requested network `nB` does not resolve (only `nA`
exists); `allocate_for_instance` raises nothing and silently allocates a port
only for the resolved subset. -/
theorem claim_C6_counterexample :
    allocateForInstance cxEnv noFail cxInst (some cxReqs) none []
        ⟨[cxNetA], [], [], [], 0⟩ =
      (.ok [⟨"newport", "remote-assigned-mac", "nA", "netA"⟩],
        ⟨[cxNetA],
          [⟨"newport", "nA", "remote-assigned-mac", some "i1", "compute:z", "t", [], none,
            [], none, true⟩], [], [], 1⟩) := by
  rfl

/-! ### Facts about the network selector -/

theorem availCandidates_mem {st : QState} {proj : String} {net_ids : List String}
    {n : QNetwork} (h : n ∈ availCandidates st proj net_ids) :
    n ∈ st.networks ∧ (net_ids ≠ [] → n.id ∈ net_ids) := by
  rcases List.mem_append.mp h with h1 | h1
  · have hm := List.mem_filter.mp h1
    refine ⟨hm.1, ?_⟩
    intro hne
    have hb := hm.2
    simp only [Bool.and_eq_true, Bool.or_eq_true] at hb
    rcases hb.2 with he | hc
    · exact absurd (List.isEmpty_iff.mp he) hne
    · simpa using hc
  · have hm := List.mem_filter.mp h1
    refine ⟨hm.1, ?_⟩
    intro hne
    have hb := hm.2
    simp only [Bool.and_eq_true, Bool.or_eq_true] at hb
    rcases hb.2 with he | hc
    · exact absurd (List.isEmpty_iff.mp he) hne
    · simpa using hc

/-- The selector never raises: with no requested ids no sort runs, and with
requested ids every candidate's id occurs among them. -/
theorem getAvailableNetworks_eq (st : QState) (proj : String) (net_ids : List String) :
    getAvailableNetworks st proj net_ids =
      .ok (if net_ids.isEmpty then availCandidates st proj net_ids
           else sortByPreferred (fun n : QNetwork => n.id) (availCandidates st proj net_ids) net_ids) := by
  rw [getAvailableNetworks, ensureRequestedNetworkOrdering]
  by_cases he : net_ids.isEmpty
  · rw [if_pos he, if_pos he]
  · have hall : ((availCandidates st proj net_ids).all
        (fun x => (pyIndex net_ids x.id).isSome)) = true := by
      rw [List.all_eq_true]
      intro x hx
      exact pyIndex_isSome_of_mem
        ((availCandidates_mem hx).2 (fun hnil => he (by rw [hnil]; rfl)))
    rw [if_neg he, if_pos hall, if_neg he]

theorem availCandidates_ids_nodup {st : QState} {proj : String} {net_ids : List String}
    (h : (st.networks.map (fun n => n.id)).Nodup) :
    ((availCandidates st proj net_ids).map (fun n => n.id)).Nodup := by
  rw [availCandidates, List.map_append]
  apply List.Nodup.append
  · exact h.sublist (List.Sublist.map _ (List.filter_sublist _))
  · exact h.sublist (List.Sublist.map _ (List.filter_sublist _))
  · intro a ha1 ha2
    simp only [List.mem_map] at ha1 ha2
    obtain ⟨n1, hn1, rfl⟩ := ha1
    obtain ⟨n2, hn2, heq⟩ := ha2
    have hm1 := List.mem_filter.mp hn1
    have hm2 := List.mem_filter.mp hn2
    have hne : n1 ≠ n2 := by
      intro hcontra
      have h1 := hm1.2
      have h2 := hm2.2
      rw [← hcontra] at h2
      simp only [Bool.and_eq_true, Bool.not_eq_eq_eq_not, Bool.not_true] at h1 h2
      rw [h1.1.2] at h2
      exact absurd h2.1 (by simp)
    exact hne (List.inj_on_of_nodup_map h hm1.1 hm2.1 heq.symm)

/-! ### validate_networks (the pre-flight check) -/

/-- The first phase of `validate_networks`: resolve port-backed entries via
`show_port` (missing port and in-use port are errors), derive each entry's
network id, and collect the ids in order, raising on a duplicate. -/
def validateCollectNetIds (st : QState) :
    List ReqNet → List (Option String) → Except NovaError (List (Option String))
  | [], nids => .ok nids
  | r :: rs, nids =>
    if pyTruthy r.port_id then
      match showPort st (r.port_id.getD "") with
      | .error e => .error e
      | .ok port =>
        if pyTruthy port.device_id then .error (.portInUse (r.port_id.getD ""))
        else if (some port.network_id) ∈ nids then
          .error (.networkDuplicated port.network_id)
        else validateCollectNetIds st rs (nids ++ [some port.network_id])
    else
      if r.net_id ∈ nids then .error (.networkDuplicated (r.net_id.getD ""))
      else validateCollectNetIds st rs (nids ++ [r.net_id])

/-- `validate_networks(context, requested_networks)`: after collecting the
requested ids, resolve the available networks and report a not-found error
when fewer networks resolve than ids were requested.  (An absent entry —
neither network id nor port id — contributes Python `None` to the id list;
the remote id filter is modelled with the empty string standing for it, which
no well-formed network id equals.) -/
def validateNetworks (st : QState) (project_id : String)
    (requested : Option (List ReqNet)) : Except NovaError Unit :=
  match requested with
  | none => .ok ()
  | some [] => .ok ()
  | some (r :: rs) =>
    match validateCollectNetIds st (r :: rs) [] with
    | .error e => .error e
    | .ok nids =>
      match getAvailableNetworks st project_id (nids.map (fun o => o.getD "")) with
      | .error e => .error e
      | .ok nets =>
        if nets.length ≠ nids.length then .error .networkNotFound else .ok ()

/-! ### Claim C6: a requested network id absent from the resolved set -/

/-- C6 (amended): `allocate_for_instance` itself does not detect a requested
network id that fails to resolve — it silently allocates ports only for the
resolved subset (see the counterexample); the detection lives in the
pre-flight `validate_networks`, which raises a network-not-found error
whenever some collected requested id does not belong to any remote
network. -/
theorem claim_C6_validate_detects (st : QState) (proj : String)
    (r : ReqNet) (rs : List ReqNet) (nids : List (Option String)) (d : String)
    (hnodupNets : (st.networks.map (fun n => n.id)).Nodup)
    (hcollect : validateCollectNetIds st (r :: rs) [] = .ok nids)
    (hd : d ∈ nids.map (fun o => o.getD ""))
    (hmissing : d ∉ st.networks.map (fun n => n.id)) :
    validateNetworks st proj (some (r :: rs)) = .error .networkNotFound := by
  have hne : nids.map (fun o => o.getD "") ≠ [] := by
    intro hnil
    rw [hnil] at hd
    simp at hd
  have hnotEmpty : (nids.map (fun o => o.getD "")).isEmpty = false := by
    cases hcase : nids.map (fun o => o.getD "") with
    | nil => exact absurd hcase hne
    | cons a as => rfl
  have hg : getAvailableNetworks st proj (nids.map (fun o => o.getD "")) =
      .ok (sortByPreferred (fun n : QNetwork => n.id)
        (availCandidates st proj (nids.map (fun o => o.getD "")))
        (nids.map (fun o => o.getD ""))) := by
    rw [getAvailableNetworks_eq, if_neg (by simp [hnotEmpty])]
  have hkeys : ∀ x ∈ availCandidates st proj (nids.map (fun o => o.getD "")),
      x.id ∈ nids.map (fun o => o.getD "") :=
    fun x hx => (availCandidates_mem hx).2 hne
  have hlen1 : (sortByPreferred (fun n : QNetwork => n.id)
      (availCandidates st proj (nids.map (fun o => o.getD "")))
      (nids.map (fun o => o.getD ""))).length =
      (availCandidates st proj (nids.map (fun o => o.getD ""))).length :=
    (sortByPreferred_perm (fun n : QNetwork => n.id) _ _ hkeys).length_eq
  have hcandlt : (availCandidates st proj (nids.map (fun o => o.getD ""))).length <
      (nids.map (fun o => o.getD "")).length := by
    have hsub : ((availCandidates st proj (nids.map (fun o => o.getD ""))).map
        (fun n => n.id)) ⊆ (nids.map (fun o => o.getD "")).erase d := by
      intro a ha
      simp only [List.mem_map] at ha
      obtain ⟨n, hn, rfl⟩ := ha
      have hda : n.id ≠ d := by
        intro hcontra
        apply hmissing
        rw [← hcontra]
        exact List.mem_map.mpr ⟨n, (availCandidates_mem hn).1, rfl⟩
      exact (List.mem_erase_of_ne hda).mpr (hkeys n hn)
    have hnodupCand := @availCandidates_ids_nodup st proj
      (nids.map (fun o => o.getD "")) hnodupNets
    have hlen2 := (List.subperm_of_subset hnodupCand hsub).length_le
    rw [List.length_map, List.length_erase_of_mem hd] at hlen2
    have hpos : 0 < (nids.map (fun o => o.getD "")).length := List.length_pos_of_mem hd
    omega
  have hfinal : (sortByPreferred (fun n : QNetwork => n.id)
      (availCandidates st proj (nids.map (fun o => o.getD "")))
      (nids.map (fun o => o.getD ""))).length ≠ nids.length := by
    rw [hlen1]
    have hml : (nids.map (fun o => o.getD "")).length = nids.length := List.length_map _ _
    omega
  have hstep : validateNetworks st proj (some (r :: rs)) =
      (if (sortByPreferred (fun n : QNetwork => n.id)
          (availCandidates st proj (nids.map (fun o => o.getD "")))
          (nids.map (fun o => o.getD ""))).length ≠ nids.length
       then .error .networkNotFound else .ok ()) := by
    simp only [validateNetworks, hcollect, hg]
  rw [hstep, if_pos hfinal]

/-- C6 witness: the validate theorem instantiated at a store holding only
network `nA` while `nA` and `nB` are requested. -/
theorem claim_C6_validate_detects_witness :
    validateNetworks ⟨[cxNetA], [], [], [], 0⟩ "t" (some cxReqs) =
      .error .networkNotFound := by
  have h := claim_C6_validate_detects ⟨[cxNetA], [], [], [], 0⟩ "t"
    ⟨some "nA", none, none⟩ [⟨some "nB", none, none⟩] [some "nA", some "nB"] "nB"
    (by decide) (by rfl) (by decide) (by decide)
  exact h

/-! ### Claim C2: the security-group applicability check -/

/-- C2 (amended): the applicability check runs per network inside the
allocation loop, so when a later resolved network has no subnets (or
port-security disabled when the capability is reported) the error arrives
only after ports for earlier networks were already created or updated (see
the counterexample); when the offending network is first in the resolved
order, the call fails with "security group cannot be applied" before any
port has been created or updated and the remote state is unchanged. -/
theorem claim_C2_secgroup_check (env : Env) (spec : FailSpec) (inst : Inst)
    (reqs : Option (List ReqNet)) (hvMacs : Option (List String))
    (sgs : List String) (st : QState)
    (pm : List (String × QPort)) (fim : List (String × String))
    (netIds : List String) (am : Option (List String))
    (bad : QNetwork) (rest : List QNetwork) (sgIds : List String)
    (hproj : ¬ inst.project_id = "")
    (hsgs : sgs ≠ [])
    (hparse : parseRequested st hvMacs (reqs.getD []) [] [] [] (hvMacs.map List.dedup) =
      .ok (pm, fim, netIds, am))
    (hnets : getAvailableNetworks st inst.project_id netIds = .ok (bad :: rest))
    (hsg : resolveSecurityGroups (listSecurityGroups st inst.project_id) sgs = .ok sgIds)
    (hbad : ¬ (bad.subnets ≠ [] ∧ bad.port_security_enabled.getD true)) :
    allocateForInstance env spec inst reqs hvMacs sgs st =
      (.error .securityGroupCannotBeApplied, st) := by
  have hloop : processNets env spec inst sgs sgIds pm fim (bad :: rest) am [] [] st =
      (.error .securityGroupCannotBeApplied, st) := by
    simp only [processNets]
    rw [if_pos ⟨hsgs, hbad⟩]
  simp only [allocateForInstance, if_neg hproj, hparse, allocateAfterParse, hnets,
    allocateWithNets, hsg, allocateLoop, hloop]

/-- C2 witness: the amended theorem instantiated with the subnet-less network
first (and only) in the resolved order: error, state unchanged. -/
theorem claim_C2_secgroup_check_witness :
    allocateForInstance cxEnv noFail cxInst (some [⟨some "nB", none, none⟩]) none ["sg1"]
        ⟨[cxNetB], [], [], [⟨"g1", "sg1", "t"⟩], 0⟩ =
      (.error .securityGroupCannotBeApplied, ⟨[cxNetB], [], [], [⟨"g1", "sg1", "t"⟩], 0⟩) :=
  claim_C2_secgroup_check cxEnv noFail cxInst (some [⟨some "nB", none, none⟩]) none ["sg1"]
    ⟨[cxNetB], [], [], [⟨"g1", "sg1", "t"⟩], 0⟩ [] [] ["nB"] none cxNetB [] ["g1"]
    (by decide) (by decide) (by rfl) (by rfl) (by rfl) (by decide)

/-! ### Facts about the rollback -/

theorem clearBindingBody_id (env : Env) (q : QPort) :
    (clearBindingBody env q).id = q.id := by
  rw [clearBindingBody]
  split <;> rfl

theorem clearBindingBody_device (env : Env) (q : QPort) :
    (clearBindingBody env q).device_id = none := by
  rw [clearBindingBody]
  split <;> rfl

theorem applyTouchBody_id (env : Env) (inst : Inst) (q : QPort) :
    (applyTouchBody env inst q).id = q.id := by
  rw [applyTouchBody]
  split <;> split <;> rfl

theorem applyTouchBody_device (env : Env) (inst : Inst) (q : QPort) :
    (applyTouchBody env inst q).device_id = some inst.uuid := by
  rw [applyTouchBody]
  split <;> split <;> rfl

theorem rollbackUpdateFold_mem (env : Env) (spec : FailSpec)
    (hRU : ∀ pid, spec.rollbackUpdateFails pid = false) :
    ∀ (touched : List String) (st : QState) (p : QPort),
      p ∈ (touched.foldl (rollbackUpdateStep env spec) st).ports →
      ∃ q ∈ st.ports, q.id = p.id ∧ (p = q ∨ p.device_id = none) := by
  intro touched
  induction touched with
  | nil => intro st p hp; exact ⟨p, hp, rfl, Or.inl rfl⟩
  | cons t ts ih =>
    intro st p hp
    rw [List.foldl_cons] at hp
    obtain ⟨q', hq', hid, hcase⟩ := ih (rollbackUpdateStep env spec st t) p hp
    rw [rollbackUpdateStep] at hq'
    rw [if_neg (by simp [hRU t])] at hq'
    simp only [updatePortState, List.mem_map] at hq'
    obtain ⟨q, hq, hqq'⟩ := hq'
    by_cases hqt : q.id = t
    · rw [if_pos hqt] at hqq'
      refine ⟨q, hq, ?_, ?_⟩
      · rw [← hid, ← hqq', clearBindingBody_id]
      · right
        rcases hcase with hpq' | hdev
        · rw [hpq', ← hqq', clearBindingBody_device]
        · exact hdev
    · rw [if_neg hqt] at hqq'
      subst hqq'
      exact ⟨q, hq, hid, hcase⟩

theorem rollbackUpdateFold_inv (env : Env) (spec : FailSpec) (i : String) :
    ∀ (touched : List String) (st : QState),
      (∀ p ∈ st.ports, p.id = i → p.device_id = none) →
      ∀ p ∈ (touched.foldl (rollbackUpdateStep env spec) st).ports,
        p.id = i → p.device_id = none := by
  intro touched
  induction touched with
  | nil => intro st hinv p hp; exact hinv p hp
  | cons t ts ih =>
    intro st hinv p hp
    rw [List.foldl_cons] at hp
    refine ih (rollbackUpdateStep env spec st t) ?_ p hp
    intro p' hp' hpi
    rw [rollbackUpdateStep] at hp'
    by_cases hf : spec.rollbackUpdateFails t
    · rw [if_pos hf] at hp'
      exact hinv p' hp' hpi
    · rw [if_neg hf] at hp'
      simp only [updatePortState, List.mem_map] at hp'
      obtain ⟨q, hq, hqp'⟩ := hp'
      by_cases hqt : q.id = t
      · rw [if_pos hqt] at hqp'
        rw [← hqp', clearBindingBody_device]
      · rw [if_neg hqt] at hqp'
        subst hqp'
        exact hinv q hq hpi

theorem rollbackUpdateFold_touched (env : Env) (spec : FailSpec)
    (hRU : ∀ pid, spec.rollbackUpdateFails pid = false) :
    ∀ (touched : List String) (st : QState) (p : QPort),
      p ∈ (touched.foldl (rollbackUpdateStep env spec) st).ports →
      p.id ∈ touched → p.device_id = none := by
  intro touched
  induction touched with
  | nil => intro st p _ hmem; simp at hmem
  | cons t ts ih =>
    intro st p hp hmem
    rw [List.foldl_cons] at hp
    by_cases hts : p.id ∈ ts
    · exact ih (rollbackUpdateStep env spec st t) p hp hts
    · have hpt : p.id = t := by
        rcases List.mem_cons.mp hmem with h | h
        · exact h
        · exact absurd h hts
      refine rollbackUpdateFold_inv env spec t ts (rollbackUpdateStep env spec st t)
        ?_ p hp hpt
      intro p' hp' hpi
      rw [rollbackUpdateStep, if_neg (by simp [hRU t])] at hp'
      simp only [updatePortState, List.mem_map] at hp'
      obtain ⟨q, hq, hqp'⟩ := hp'
      by_cases hqt : q.id = t
      · rw [if_pos hqt] at hqp'
        rw [← hqp', clearBindingBody_device]
      · rw [if_neg hqt] at hqp'
        subst hqp'
        exact absurd hpi hqt

theorem rollbackDeleteFold_mem (spec : FailSpec)
    (hRD : ∀ pid, spec.rollbackDeleteFails pid = false) :
    ∀ (created : List String) (st : QState) (p : QPort),
      p ∈ (created.foldl (rollbackDeleteStep spec) st).ports →
      p ∈ st.ports ∧ p.id ∉ created := by
  intro created
  induction created with
  | nil => intro st p hp; exact ⟨hp, by simp⟩
  | cons c cs ih =>
    intro st p hp
    rw [List.foldl_cons] at hp
    obtain ⟨hp1, hp2⟩ := ih (rollbackDeleteStep spec st c) p hp
    rw [rollbackDeleteStep, if_neg (by simp [hRD c])] at hp1
    simp only [deletePortState, List.mem_filter] at hp1
    refine ⟨hp1.1, ?_⟩
    intro hmem
    rcases List.mem_cons.mp hmem with h | h
    · have := hp1.2
      simp only [decide_eq_true_eq] at this
      exact this h
    · exact hp2 h

/-- The rollback's effect, when every compensation call succeeds: no created
id survives, every touched id's surviving ports are unbound, and every
surviving port descends from a port of the pre-rollback state with the same
id and either the same or a cleared device binding. -/
theorem rollbackApply_spec (env : Env) (spec : FailSpec)
    (hRU : ∀ pid, spec.rollbackUpdateFails pid = false)
    (hRD : ∀ pid, spec.rollbackDeleteFails pid = false)
    (touched created : List String) (st : QState) :
    ∀ p ∈ (rollbackApply env spec touched created st).ports,
      p.id ∉ created ∧ (p.id ∈ touched → p.device_id = none) ∧
      ∃ q ∈ st.ports, q.id = p.id ∧ (p.device_id = q.device_id ∨ p.device_id = none) := by
  intro p hp
  rw [rollbackApply] at hp
  obtain ⟨hp1, hp2⟩ := rollbackDeleteFold_mem spec hRD created _ p hp
  obtain ⟨q, hq, hid, hcase⟩ := rollbackUpdateFold_mem env spec hRU touched st p hp1
  refine ⟨hp2, ?_, q, hq, hid, ?_⟩
  · intro hmem
    exact rollbackUpdateFold_touched env spec hRU touched st p hp1 hmem
  · rcases hcase with hpq | hdev
    · left; rw [hpq]
    · right; exact hdev

/-! ### Equation lemmas for the guarded step -/

theorem guardedStep_touch (env : Env) (spec : FailSpec) (inst : Inst)
    (sgIds : List String) (pm : List (String × QPort)) (fim : List (String × String))
    (net : QNetwork) (am : Option (List String)) (st : QState) (port : QPort)
    (hlk : assocLookup pm net.id = some port)
    (hf : spec.updatePortFails port.id = false) :
    guardedStep env spec inst sgIds pm fim net am st =
      .ok (am, .touchedPort port.id, updatePortState st port.id (applyTouchBody env inst)) := by
  rw [guardedStep.eq_def, hlk]
  simp [hf]

theorem guardedStep_touch_fail (env : Env) (spec : FailSpec) (inst : Inst)
    (sgIds : List String) (pm : List (String × QPort)) (fim : List (String × String))
    (net : QNetwork) (am : Option (List String)) (st : QState) (port : QPort)
    (hlk : assocLookup pm net.id = some port)
    (hf : spec.updatePortFails port.id = true) :
    guardedStep env spec inst sgIds pm fim net am st = .error (.remoteError "update_port") := by
  rw [guardedStep.eq_def, hlk]
  simp [hf]

theorem guardedStep_exhausted (env : Env) (spec : FailSpec) (inst : Inst)
    (sgIds : List String) (pm : List (String × QPort)) (fim : List (String × String))
    (net : QNetwork) (st : QState)
    (hlk : assocLookup pm net.id = none) :
    guardedStep env spec inst sgIds pm fim net (some []) st = .error .portNotFree := by
  rw [guardedStep.eq_def, hlk]

theorem guardedStep_create_fail_nil (env : Env) (spec : FailSpec) (inst : Inst)
    (sgIds : List String) (pm : List (String × QPort)) (fim : List (String × String))
    (net : QNetwork) (st : QState)
    (hlk : assocLookup pm net.id = none)
    (hf : spec.createPortFails net.id = true) :
    guardedStep env spec inst sgIds pm fim net none st = .error (.remoteError "create_port") := by
  rw [guardedStep.eq_def, hlk]
  simp [guardedStep.createOnNet, hf]

theorem guardedStep_create_fail_cons (env : Env) (spec : FailSpec) (inst : Inst)
    (sgIds : List String) (pm : List (String × QPort)) (fim : List (String × String))
    (net : QNetwork) (m : String) (ms : List String) (st : QState)
    (hlk : assocLookup pm net.id = none)
    (hf : spec.createPortFails net.id = true) :
    guardedStep env spec inst sgIds pm fim net (some (m :: ms)) st =
      .error (.remoteError "create_port") := by
  rw [guardedStep.eq_def, hlk]
  simp [guardedStep.createOnNet, hf]

theorem guardedStep_create_none (env : Env) (spec : FailSpec) (inst : Inst)
    (sgIds : List String) (pm : List (String × QPort)) (fim : List (String × String))
    (net : QNetwork) (st : QState)
    (hlk : assocLookup pm net.id = none)
    (hf : spec.createPortFails net.id = false) :
    guardedStep env spec inst sgIds pm fim net none st =
      .ok (none, .createdPort (createdPortBody env inst sgIds fim net none st).id,
        { st with
          ports := st.ports ++ [createdPortBody env inst sgIds fim net none st],
          nextPortId := st.nextPortId + 1 }) := by
  rw [guardedStep.eq_def, hlk]
  simp [guardedStep.createOnNet, hf]

theorem guardedStep_create_cons (env : Env) (spec : FailSpec) (inst : Inst)
    (sgIds : List String) (pm : List (String × QPort)) (fim : List (String × String))
    (net : QNetwork) (m : String) (ms : List String) (st : QState)
    (hlk : assocLookup pm net.id = none)
    (hf : spec.createPortFails net.id = false) :
    guardedStep env spec inst sgIds pm fim net (some (m :: ms)) st =
      .ok (some ms, .createdPort (createdPortBody env inst sgIds fim net (some m) st).id,
        { st with
          ports := st.ports ++ [createdPortBody env inst sgIds fim net (some m) st],
          nextPortId := st.nextPortId + 1 }) := by
  rw [guardedStep.eq_def, hlk]
  simp [guardedStep.createOnNet, hf]

theorem createdPortBody_device (env : Env) (inst : Inst) (sgIds : List String)
    (fim : List (String × String)) (net : QNetwork) (macOpt : Option String)
    (st : QState) :
    (createdPortBody env inst sgIds fim net macOpt st).device_id = some inst.uuid := rfl

theorem createdPortBody_id (env : Env) (inst : Inst) (sgIds : List String)
    (fim : List (String × String)) (net : QNetwork) (macOpt : Option String)
    (st : QState) :
    (createdPortBody env inst sgIds fim net macOpt st).id =
      env.genPortId st.nextPortId := rfl

theorem createdPortBody_network (env : Env) (inst : Inst) (sgIds : List String)
    (fim : List (String × String)) (net : QNetwork) (macOpt : Option String)
    (st : QState) :
    (createdPortBody env inst sgIds fim net macOpt st).network_id = net.id := rfl

theorem createdPortBody_tenant (env : Env) (inst : Inst) (sgIds : List String)
    (fim : List (String × String)) (net : QNetwork) (macOpt : Option String)
    (st : QState) :
    (createdPortBody env inst sgIds fim net macOpt st).tenant_id = inst.project_id := rfl

/-! ### Rollback completeness of the allocation loop -/

theorem rollback_conclusions (env : Env) (spec : FailSpec) (inst : Inst)
    (st0 st : QState) (touched created : List String)
    (hRU : ∀ pid, spec.rollbackUpdateFails pid = false)
    (hRD : ∀ pid, spec.rollbackDeleteFails pid = false)
    (hI1 : ∀ p ∈ st.ports, p.id ∉ created → p.id ∈ st0.ports.map (fun q => q.id))
    (hI2 : ∀ p ∈ st.ports, p.device_id = some inst.uuid →
      p.id ∈ touched ∨ p.id ∈ created ∨
        ∃ q ∈ st0.ports, q.id = p.id ∧ q.device_id = some inst.uuid) :
    (∀ p ∈ (rollbackApply env spec touched created st).ports,
      p.id ∈ st0.ports.map (fun q => q.id)) ∧
    (∀ p ∈ (rollbackApply env spec touched created st).ports,
      p.device_id = some inst.uuid →
        ∃ q ∈ st0.ports, q.id = p.id ∧ q.device_id = some inst.uuid) := by
  constructor
  · intro p hp
    obtain ⟨hpc, _, q, hq, hid, _⟩ :=
      rollbackApply_spec env spec hRU hRD touched created st p hp
    have hqnc : q.id ∉ created := by rw [hid]; exact hpc
    have := hI1 q hq hqnc
    rw [← hid]
    exact this
  · intro p hp hdev
    obtain ⟨hpc, hpt, q, hq, hid, hcase⟩ :=
      rollbackApply_spec env spec hRU hRD touched created st p hp
    have hptn : p.id ∉ touched := by
      intro hmem
      rw [hpt hmem] at hdev
      exact Option.noConfusion hdev
    rcases hcase with hsame | hnone
    · have hqdev : q.device_id = some inst.uuid := by rw [← hsame]; exact hdev
      rcases hI2 q hq hqdev with hin | hin | hin
      · rw [hid] at hin
        exact absurd hin hptn
      · rw [hid] at hin
        exact absurd hin hpc
      · obtain ⟨q0, hq0, hq0id, hq0dev⟩ := hin
        exact ⟨q0, hq0, by rw [hq0id, hid], hq0dev⟩
    · rw [hnone] at hdev
      exact Option.noConfusion hdev

/-- The allocation loop's error behaviour: when it returns an error other
than the (uncompensated) security-group applicability error, and every
compensation call succeeds, the final remote port set introduces no new port
id relative to the pre-call state, and no port is bound to the instance that
was not already so bound before the call. -/
theorem processNets_error_safe (env : Env) (spec : FailSpec) (inst : Inst)
    (secGroups sgIds : List String)
    (pm : List (String × QPort)) (fim : List (String × String)) (st0 : QState)
    (hRU : ∀ pid, spec.rollbackUpdateFails pid = false)
    (hRD : ∀ pid, spec.rollbackDeleteFails pid = false) :
    ∀ (nets : List QNetwork) (am : Option (List String))
      (touched created : List String) (st : QState),
      (∀ p ∈ st.ports, p.id ∉ created → p.id ∈ st0.ports.map (fun q => q.id)) →
      (∀ p ∈ st.ports, p.device_id = some inst.uuid →
        p.id ∈ touched ∨ p.id ∈ created ∨
          ∃ q ∈ st0.ports, q.id = p.id ∧ q.device_id = some inst.uuid) →
      ∀ (e : NovaError) (st1 : QState),
        processNets env spec inst secGroups sgIds pm fim nets am touched created st =
          (.error e, st1) →
        e ≠ .securityGroupCannotBeApplied →
        (∀ p ∈ st1.ports, p.id ∈ st0.ports.map (fun q => q.id)) ∧
        (∀ p ∈ st1.ports, p.device_id = some inst.uuid →
          ∃ q ∈ st0.ports, q.id = p.id ∧ q.device_id = some inst.uuid) := by
  intro nets
  induction nets with
  | nil =>
    intro am touched created st _ _ e st1 hrun _
    rw [processNets] at hrun
    exact absurd (congrArg Prod.fst hrun) (by simp)
  | cons net rest ih =>
    intro am touched created st hI1 hI2 e st1 hrun hnotSG
    simp only [processNets] at hrun
    by_cases hsgc : secGroups ≠ [] ∧
        ¬ (net.subnets ≠ [] ∧ net.port_security_enabled.getD true)
    · rw [if_pos hsgc] at hrun
      have h1 := congrArg Prod.fst hrun
      simp only at h1
      injection h1 with h2
      exact absurd h2.symm hnotSG
    · rw [if_neg hsgc] at hrun
      have herrCase : ∀ e2 : NovaError,
          guardedStep env spec inst sgIds pm fim net am st = .error e2 →
          (∀ p ∈ st1.ports, p.id ∈ st0.ports.map (fun q => q.id)) ∧
          (∀ p ∈ st1.ports, p.device_id = some inst.uuid →
            ∃ q ∈ st0.ports, q.id = p.id ∧ q.device_id = some inst.uuid) := by
        intro e2 hstep
        rw [hstep] at hrun
        have hrun2 : ((.error e2 : Except NovaError (List String × List String)),
            rollbackApply env spec touched created st) = (.error e, st1) := hrun
        have hst1 : st1 = rollbackApply env spec touched created st := by
          injection hrun2 with _ h
          exact h.symm
        rw [hst1]
        exact rollback_conclusions env spec inst st0 st touched created hRU hRD hI1 hI2
      have htouchCase : ∀ (port : QPort),
          assocLookup pm net.id = some port →
          spec.updatePortFails port.id = false →
          (∀ p ∈ st1.ports, p.id ∈ st0.ports.map (fun q => q.id)) ∧
          (∀ p ∈ st1.ports, p.device_id = some inst.uuid →
            ∃ q ∈ st0.ports, q.id = p.id ∧ q.device_id = some inst.uuid) := by
        intro port hlk hf
        rw [guardedStep_touch env spec inst sgIds pm fim net am st port hlk hf] at hrun
        have hrun2 : processNets env spec inst secGroups sgIds pm fim rest am
            (touched ++ [port.id]) created
            (updatePortState st port.id (applyTouchBody env inst)) = (.error e, st1) := hrun
        refine ih am (touched ++ [port.id]) created _ ?_ ?_ e st1 hrun2 hnotSG
        · intro p hp hnc
          simp only [updatePortState, List.mem_map] at hp
          obtain ⟨q, hq, hqp⟩ := hp
          have hid : p.id = q.id := by
            by_cases hqt : q.id = port.id
            · rw [if_pos hqt] at hqp
              rw [← hqp, applyTouchBody_id]
            · rw [if_neg hqt] at hqp
              rw [← hqp]
          rw [hid]
          rw [hid] at hnc
          exact hI1 q hq hnc
        · intro p hp hdev
          simp only [updatePortState, List.mem_map] at hp
          obtain ⟨q, hq, hqp⟩ := hp
          by_cases hqt : q.id = port.id
          · rw [if_pos hqt] at hqp
            left
            have : p.id = port.id := by rw [← hqp, applyTouchBody_id, hqt]
            rw [this]
            exact List.mem_append_right _ (List.mem_singleton.mpr rfl)
          · rw [if_neg hqt] at hqp
            subst hqp
            rcases hI2 q hq hdev with hin | hin | hin
            · exact Or.inl (List.mem_append_left _ hin)
            · exact Or.inr (Or.inl hin)
            · exact Or.inr (Or.inr hin)
      have hcreateCase : ∀ (macOpt : Option String) (am2 : Option (List String)),
          guardedStep env spec inst sgIds pm fim net am st =
            .ok (am2, .createdPort (createdPortBody env inst sgIds fim net macOpt st).id,
              { st with
                ports := st.ports ++ [createdPortBody env inst sgIds fim net macOpt st],
                nextPortId := st.nextPortId + 1 }) →
          (∀ p ∈ st1.ports, p.id ∈ st0.ports.map (fun q => q.id)) ∧
          (∀ p ∈ st1.ports, p.device_id = some inst.uuid →
            ∃ q ∈ st0.ports, q.id = p.id ∧ q.device_id = some inst.uuid) := by
        intro macOpt am2 hstep
        rw [hstep] at hrun
        have hrun2 : processNets env spec inst secGroups sgIds pm fim rest am2
            touched (created ++ [(createdPortBody env inst sgIds fim net macOpt st).id])
            { st with
              ports := st.ports ++ [createdPortBody env inst sgIds fim net macOpt st],
              nextPortId := st.nextPortId + 1 } = (.error e, st1) := hrun
        refine ih am2 touched
          (created ++ [(createdPortBody env inst sgIds fim net macOpt st).id]) _
          ?_ ?_ e st1 hrun2 hnotSG
        · intro p hp hnc
          simp only [List.mem_append, List.mem_singleton] at hp
          rcases hp with hp | hp
          · refine hI1 p hp ?_
            intro hmem
            exact hnc (List.mem_append_left _ hmem)
          · exfalso
            apply hnc
            rw [hp]
            exact List.mem_append_right _ (List.mem_singleton.mpr rfl)
        · intro p hp hdev
          simp only [List.mem_append, List.mem_singleton] at hp
          rcases hp with hp | hp
          · rcases hI2 p hp hdev with hin | hin | hin
            · exact Or.inl hin
            · exact Or.inr (Or.inl (List.mem_append_left _ hin))
            · exact Or.inr (Or.inr hin)
          · right; left
            rw [hp]
            exact List.mem_append_right _ (List.mem_singleton.mpr rfl)
      cases hlk : assocLookup pm net.id with
      | some port =>
        by_cases hf : spec.updatePortFails port.id = true
        · exact herrCase _ (guardedStep_touch_fail env spec inst sgIds pm fim net am st port hlk hf)
        · have hf2 : spec.updatePortFails port.id = false := by
            cases h : spec.updatePortFails port.id
            · rfl
            · exact absurd h hf
          exact htouchCase port hlk hf2
      | none =>
        cases ham : am with
        | none =>
          rw [ham] at herrCase hcreateCase
          by_cases hf : spec.createPortFails net.id = true
          · exact herrCase _ (guardedStep_create_fail_nil env spec inst sgIds pm fim net st hlk hf)
          · have hf2 : spec.createPortFails net.id = false := by
              cases h : spec.createPortFails net.id
              · rfl
              · exact absurd h hf
            exact hcreateCase none none
              (guardedStep_create_none env spec inst sgIds pm fim net st hlk hf2)
        | some l =>
          cases l with
          | nil =>
            rw [ham] at herrCase
            exact herrCase _ (guardedStep_exhausted env spec inst sgIds pm fim net st hlk)
          | cons m ms =>
            rw [ham] at herrCase hcreateCase
            by_cases hf : spec.createPortFails net.id = true
            · exact herrCase _
                (guardedStep_create_fail_cons env spec inst sgIds pm fim net m ms st hlk hf)
            · have hf2 : spec.createPortFails net.id = false := by
                cases h : spec.createPortFails net.id
                · rfl
                · exact absurd h hf
              exact hcreateCase (some m) (some ms)
                (guardedStep_create_cons env spec inst sgIds pm fim net m ms st hlk hf2)

/-- The info-model build never raises on the allocate path: the ports handed
to the reordering are pre-filtered to the supplied networks' ids. -/
theorem buildNetworkInfoModel_isOk (st : QState) (inst : Inst) (nets : List QNetwork) :
    ∃ vifs, buildNetworkInfoModel st inst nets = .ok vifs := by
  rw [buildNetworkInfoModel]
  cases hres : ensureRequestedNetworkOrdering (fun p : QPort => p.network_id)
      ((instDevicePorts st inst).filter (fun p =>
        (nets.map (fun n => n.id)).contains p.network_id))
      (nets.map (fun n => n.id)) with
  | ok sorted => exact ⟨_, rfl⟩
  | error e =>
    exfalso
    rw [ensureRequestedNetworkOrdering] at hres
    by_cases he : (nets.map (fun n => n.id)).isEmpty
    · rw [if_pos he] at hres
      exact Except.noConfusion hres
    · have hall : ((instDevicePorts st inst).filter (fun p =>
          (nets.map (fun n => n.id)).contains p.network_id)).all
          (fun x => (pyIndex (nets.map (fun n => n.id)) x.network_id).isSome) = true := by
        rw [List.all_eq_true]
        intro x hx
        have hmem := (List.mem_filter.mp hx).2
        have hmem2 : x.network_id ∈ nets.map (fun n => n.id) := by simpa using hmem
        exact pyIndex_isSome_of_mem hmem2
      rw [if_neg he, if_pos hall] at hres
      exact Except.noConfusion hres

/-! ### Claim C1: rollback on a failed allocation attempt -/

/-- C1 (amended): if a step inside the per-network guarded block (port
update, port creation, MAC exhaustion) raises, the allocator compensates over
everything touched or created so far — compensation failures only logged,
never raised — and re-raises the original error unchanged; consequently, for
every failed allocation attempt whose error is not the (uncompensated)
security-group applicability error, and whose compensation calls succeed, the
remote port set afterwards contains no port id that did not exist before the
attempt, and no port is bound to the instance that was not already so bound
before the attempt.  (The security-group applicability check raises outside
the guarded block and propagates without compensation — see the
counterexample.) -/
theorem claim_C1_rollback (env : Env) (spec : FailSpec) (inst : Inst)
    (reqs : Option (List ReqNet)) (hvMacs : Option (List String))
    (sgs : List String) (st0 st1 : QState) (e : NovaError)
    (hRU : ∀ pid, spec.rollbackUpdateFails pid = false)
    (hRD : ∀ pid, spec.rollbackDeleteFails pid = false)
    (hrun : allocateForInstance env spec inst reqs hvMacs sgs st0 = (.error e, st1))
    (hnotSG : e ≠ .securityGroupCannotBeApplied) :
    (∀ p ∈ st1.ports, p.id ∈ st0.ports.map (fun q => q.id)) ∧
    (∀ p ∈ st1.ports, p.device_id = some inst.uuid →
      ∃ q ∈ st0.ports, q.id = p.id ∧ q.device_id = some inst.uuid) := by
  have htriv : ∀ (st : QState), st = st0 →
      (∀ p ∈ st.ports, p.id ∈ st0.ports.map (fun q => q.id)) ∧
      (∀ p ∈ st.ports, p.device_id = some inst.uuid →
        ∃ q ∈ st0.ports, q.id = p.id ∧ q.device_id = some inst.uuid) := by
    rintro st rfl
    constructor
    · intro p hp
      exact List.mem_map.mpr ⟨p, hp, rfl⟩
    · intro p hp hdev
      exact ⟨p, hp, rfl, hdev⟩
  rw [allocateForInstance] at hrun
  by_cases hproj : inst.project_id = ""
  · rw [if_pos hproj] at hrun
    refine htriv st1 ?_
    injection hrun with _ h
    exact h.symm
  · rw [if_neg hproj] at hrun
    cases hparse : parseRequested st0 hvMacs (reqs.getD []) [] [] []
        (hvMacs.map List.dedup) with
    | error e2 =>
      rw [hparse] at hrun
      have hrun2 : ((.error e2 : Except NovaError (List VIF)), st0) = (.error e, st1) := hrun
      refine htriv st1 ?_
      injection hrun2 with _ h
      exact h.symm
    | ok parsed =>
      obtain ⟨pm, fim, netIds, am⟩ := parsed
      rw [hparse] at hrun
      have hrun2 : allocateAfterParse env spec inst sgs pm fim netIds am st0 =
          (.error e, st1) := hrun
      obtain ⟨nets, hnets⟩ : ∃ nets,
          getAvailableNetworks st0 inst.project_id netIds = .ok nets :=
        ⟨_, getAvailableNetworks_eq st0 inst.project_id netIds⟩
      rw [allocateAfterParse, hnets] at hrun2
      have hrun3 : allocateWithNets env spec inst sgs pm fim am nets st0 =
          (.error e, st1) := hrun2
      cases hsg : resolveSecurityGroups (listSecurityGroups st0 inst.project_id) sgs with
      | error e2 =>
        rw [allocateWithNets, hsg] at hrun3
        have hrun4 : ((.error e2 : Except NovaError (List VIF)), st0) = (.error e, st1) := hrun3
        refine htriv st1 ?_
        injection hrun4 with _ h
        exact h.symm
      | ok sgIds =>
        rw [allocateWithNets, hsg] at hrun3
        have hrun4 : allocateLoop env spec inst sgs sgIds pm fim am nets st0 =
            (.error e, st1) := hrun3
        rcases hloop : processNets env spec inst sgs sgIds pm fim nets am [] [] st0 with
          ⟨res, st2⟩
        rw [allocateLoop, hloop] at hrun4
        cases res with
        | error e2 =>
          have hrun5 : ((.error e2 : Except NovaError (List VIF)), st2) = (.error e, st1) := hrun4
          have he2 : e2 = e := Except.error.inj (congrArg Prod.fst hrun5)
          have hst2 : st2 = st1 := congrArg Prod.snd hrun5
          rw [← hst2]
          exact processNets_error_safe env spec inst sgs sgIds pm fim st0 hRU hRD
            nets am [] [] st0
            (fun p hp _ => List.mem_map.mpr ⟨p, hp, rfl⟩)
            (fun p hp hdev => Or.inr (Or.inr ⟨p, hp, rfl, hdev⟩))
            e2 st2 hloop (by rw [he2]; exact hnotSG)
        | ok tc =>
          obtain ⟨touched, created⟩ := tc
          have hrun5 : allocateFinish inst nets touched created st2 = (.error e, st1) := hrun4
          obtain ⟨vifs, hbuild⟩ := buildNetworkInfoModel_isOk st2 inst nets
          rw [allocateFinish, hbuild] at hrun5
          have hrun6 : ((.ok (vifs.filter (fun v => (created ++ touched).contains v.id)) :
              Except NovaError (List VIF)), st2) = (.error e, st1) := hrun5
          exfalso
          have h1 := congrArg Prod.fst hrun6
          simp only at h1
          exact Except.noConfusion h1

/-- The C1 witness scenario: creation succeeds on `nA` and then fails on
`nC`, triggering the rollback. -/
def c1NetC : QNetwork := ⟨"nC", "netC", "t", false, ["subC"], none⟩

def c1Spec : FailSpec :=
  ⟨fun _ => false, fun nid => nid == "nC", fun _ => false, fun _ => false⟩

def c1State : QState := ⟨[cxNetA, c1NetC], [], [], [], 0⟩

def c1Reqs : List ReqNet := [⟨some "nA", none, none⟩, ⟨some "nC", none, none⟩]

/-- C1 witness: the create call for the second network fails; the port
created for the first network is rolled back, so the final state holds no new
port and no binding to the instance. -/
theorem claim_C1_rollback_witness :
    (∀ p ∈ (QState.mk [cxNetA, c1NetC] [] [] [] 1).ports,
      p.id ∈ c1State.ports.map (fun q => q.id)) ∧
    (∀ p ∈ (QState.mk [cxNetA, c1NetC] [] [] [] 1).ports,
      p.device_id = some cxInst.uuid →
      ∃ q ∈ c1State.ports, q.id = p.id ∧ q.device_id = some cxInst.uuid) :=
  claim_C1_rollback cxEnv c1Spec cxInst (some c1Reqs) none [] c1State
    ⟨[cxNetA, c1NetC], [], [], [], 1⟩ (.remoteError "create_port")
    (fun _ => rfl) (fun _ => rfl) (by rfl) (by decide)

/-! ### A recursive view of the bucket sort, and the selector's id list -/

theorem pyIndex_cons_zero (p : String) (ps : List String) (k : String) :
    pyIndex (p :: ps) k = some 0 ↔ k = p := by
  constructor
  · intro h
    by_cases hpk : p = k
    · exact hpk.symm
    · exfalso
      simp only [pyIndex, if_neg hpk] at h
      cases hp : pyIndex ps k with
      | none => rw [hp] at h; exact Option.noConfusion h
      | some i =>
        rw [hp] at h
        simp only [Option.map_some'] at h
        injection h with h2
        exact Nat.succ_ne_zero i h2
  · intro h
    simp only [pyIndex, if_pos h.symm]

theorem pyIndex_cons_succ (p : String) (ps : List String) (k : String) (j : Nat) :
    pyIndex (p :: ps) k = some (j + 1) ↔ (¬ k = p ∧ pyIndex ps k = some j) := by
  constructor
  · intro h
    by_cases hpk : p = k
    · simp only [pyIndex, if_pos hpk] at h
      simp at h
    · simp only [pyIndex, if_neg hpk] at h
      cases hp : pyIndex ps k with
      | none => rw [hp] at h; exact Option.noConfusion h
      | some i =>
        rw [hp] at h
        simp only [Option.map_some'] at h
        injection h with h2
        have hij : i = j := by omega
        subst hij
        exact ⟨fun hc => hpk hc.symm, rfl⟩
  · rintro ⟨h1, h2⟩
    have hpk : ¬ p = k := fun hc => h1 hc.symm
    simp only [pyIndex, if_neg hpk, h2, Option.map_some']

theorem sortByPreferred_nil_pref {α : Type} (key : α → String) (cand : List α) :
    sortByPreferred key cand [] = [] := by
  rw [sortByPreferred]
  rfl

theorem sortByPreferred_cons {α : Type} (key : α → String) (cand : List α)
    (p : String) (ps : List String) :
    sortByPreferred key cand (p :: ps) =
      cand.filter (fun x => key x = p) ++
      sortByPreferred key (cand.filter (fun x => ¬ key x = p)) ps := by
  rw [sortByPreferred, sortByPreferred]
  rw [List.length_cons, List.range_succ_eq_map, List.flatMap_cons]
  congr 1
  · apply List.filter_congr
    intro x _
    have hiff := pyIndex_cons_zero p ps (key x)
    by_cases h : key x = p
    · have h0 : pyIndex (p :: ps) (key x) = some 0 := hiff.mpr h
      rw [h0, h]
      simp
    · have h0 : ¬ pyIndex (p :: ps) (key x) = some 0 := fun hc => h (hiff.mp hc)
      simp [h0, h]
  · rw [List.flatMap_map]
    apply flatMap_congr_fn
    intro j _
    rw [List.filter_filter]
    apply List.filter_congr
    intro x _
    have hiff := pyIndex_cons_succ p ps (key x) j
    by_cases h1 : pyIndex ps (key x) = some j
    · by_cases h2 : key x = p
      · have hP : ¬ pyIndex (p :: ps) (key x) = some (j + 1) :=
          fun hc => (hiff.mp hc).1 h2
        have hd2 : (decide (¬ key x = p)) = false := by simp [h2]
        simp [hP, h1, hd2]
      · have hP : pyIndex (p :: ps) (key x) = some (j + 1) := hiff.mpr ⟨h2, h1⟩
        rw [hP, h1]
        simp [h2]
    · have hP : ¬ pyIndex (p :: ps) (key x) = some (j + 1) :=
        fun hc => h1 (hiff.mp hc).2
      have hd1 : (decide (pyIndex ps (key x) = some j)) = false := by simp [h1]
      simp [hP, hd1]

theorem nodup_all_eq_singleton {α : Type} {l : List α} {a : α}
    (hnd : l.Nodup) (hall : ∀ b ∈ l, b = a) : l = [] ∨ l = [a] := by
  cases l with
  | nil => exact Or.inl rfl
  | cons x xs =>
    right
    have hx : x = a := hall x (List.mem_cons_self x xs)
    cases xs with
    | nil => rw [hx]
    | cons y ys =>
      exfalso
      have hy : y = a := hall y (List.mem_cons_of_mem _ (List.mem_cons_self y ys))
      have : x ∈ y :: ys := by
        rw [hx, ← hy]
        exact List.mem_cons_self y ys
      exact (List.nodup_cons.mp hnd).1 this

theorem filter_eq_singleton_of_unique {α : Type} :
    ∀ {l : List α} {p : α → Bool} {a : α}, l.Nodup → a ∈ l → p a = true →
      (∀ b ∈ l, p b = true → b = a) → l.filter p = [a] := by
  intro l
  induction l with
  | nil => intro p a _ ha; simp at ha
  | cons x xs ih =>
    intro p a hnd ha hpa huniq
    by_cases hpx : p x = true
    · have hxa : x = a := huniq x (List.mem_cons_self x xs) hpx
      rw [List.filter_cons_of_pos hpx, hxa]
      have hnil : xs.filter p = [] := by
        apply List.filter_eq_nil_iff.mpr
        intro b hb hpb
        have hba : b = a := huniq b (List.mem_cons_of_mem _ hb) hpb
        have : x ∈ xs := by rw [hxa, ← hba]; exact hb
        exact (List.nodup_cons.mp hnd).1 this
      rw [hnil]
    · rw [List.filter_cons_of_neg hpx]
      have hxa : x ≠ a := by
        intro hc
        rw [hc] at hpx
        exact hpx hpa
      have ha2 : a ∈ xs := by
        rcases List.mem_cons.mp ha with h | h
        · exact absurd h.symm hxa
        · exact h
      exact ih (List.nodup_cons.mp hnd).2 ha2 hpa
        (fun b hb hpb => huniq b (List.mem_cons_of_mem _ hb) hpb)

/-- The id list of the bucket sort: with duplicate-free preferred ids and
duplicate-free candidate keys, sorting produces exactly the preferred list
restricted to the keys present. -/
theorem sortByPreferred_map_key {α : Type} (key : α → String) :
    ∀ (pref : List String) (cand : List α),
      pref.Nodup → (cand.map key).Nodup → (∀ x ∈ cand, key x ∈ pref) →
      (sortByPreferred key cand pref).map key =
        pref.filter (fun i => (cand.map key).contains i) := by
  intro pref
  induction pref with
  | nil =>
    intro cand _ _ _
    rw [sortByPreferred_nil_pref]
    rfl
  | cons p ps ih =>
    intro cand hndp hndk hkeys
    rw [sortByPreferred_cons, List.map_append]
    have hfirst : (cand.filter (fun x => key x = p)).map key =
        if (cand.map key).contains p then [p] else [] := by
      have hnd2 : ((cand.filter (fun x => key x = p)).map key).Nodup :=
        hndk.sublist (List.Sublist.map _ (List.filter_sublist _))
      have hall : ∀ b ∈ (cand.filter (fun x => key x = p)).map key, b = p := by
        intro b hb
        simp only [List.mem_map, List.mem_filter, decide_eq_true_eq] at hb
        obtain ⟨x, ⟨_, hx⟩, rfl⟩ := hb
        exact hx
      by_cases hp : (cand.map key).contains p
      · rw [if_pos hp]
        rcases nodup_all_eq_singleton hnd2 hall with hnil | hone
        · exfalso
          have hpm : p ∈ cand.map key := by simpa using hp
          simp only [List.mem_map] at hpm
          obtain ⟨x, hx, hkx⟩ := hpm
          have hmem : key x ∈ (cand.filter (fun x => key x = p)).map key := by
            apply List.mem_map.mpr
            refine ⟨x, ?_, rfl⟩
            apply List.mem_filter.mpr
            exact ⟨hx, by simp [hkx]⟩
          rw [hnil] at hmem
          simp at hmem
        · exact hone
      · rw [if_neg hp]
        apply List.eq_nil_iff_forall_not_mem.mpr
        intro b hb
        have hbp : b = p := hall b hb
        simp only [List.mem_map, List.mem_filter] at hb
        obtain ⟨x, ⟨hx, _⟩, hkx⟩ := hb
        apply hp
        have hbm : b ∈ cand.map key := List.mem_map.mpr ⟨x, hx, hkx⟩
        rw [hbp] at hbm
        simpa using hbm
    have hsecond : (sortByPreferred key (cand.filter (fun x => ¬ key x = p)) ps).map key =
        ps.filter (fun i => (cand.map key).contains i) := by
      have h1 : ((cand.filter (fun x => ¬ key x = p)).map key).Nodup :=
        hndk.sublist (List.Sublist.map _ (List.filter_sublist _))
      have h2 : ∀ x ∈ cand.filter (fun x => ¬ key x = p), key x ∈ ps := by
        intro x hx
        have hm := List.mem_filter.mp hx
        have hin := hkeys x hm.1
        have hne : ¬ key x = p := by simpa using hm.2
        rcases List.mem_cons.mp hin with h | h
        · exact absurd h hne
        · exact h
      rw [ih (cand.filter (fun x => ¬ key x = p)) (List.nodup_cons.mp hndp).2 h1 h2]
      apply List.filter_congr
      intro i hi
      have hip : i ≠ p := by
        intro hc
        rw [hc] at hi
        exact (List.nodup_cons.mp hndp).1 hi
      by_cases hc : i ∈ cand.map key
      · obtain ⟨x, hx, hkx⟩ := List.mem_map.mp hc
        have hx2 : x ∈ cand.filter (fun x => ¬ key x = p) := by
          apply List.mem_filter.mpr
          refine ⟨hx, ?_⟩
          simp only [decide_eq_true_eq]
          rw [hkx]
          exact hip
        have hc2 : i ∈ (cand.filter (fun x => ¬ key x = p)).map key :=
          List.mem_map.mpr ⟨x, hx2, hkx⟩
        have hb1 : ((cand.filter (fun x => ¬ key x = p)).map key).contains i = true :=
          List.elem_eq_true_of_mem hc2
        have hb2 : (cand.map key).contains i = true := List.elem_eq_true_of_mem hc
        rw [hb1, hb2]
      · have hc2 : i ∉ (cand.filter (fun x => ¬ key x = p)).map key := by
          intro hcontra
          apply hc
          obtain ⟨x, hx, hkx⟩ := List.mem_map.mp hcontra
          exact List.mem_map.mpr ⟨x, (List.mem_filter.mp hx).1, hkx⟩
        have hb1 : ((cand.filter (fun x => ¬ key x = p)).map key).contains i = false := by
          cases hq : ((cand.filter (fun x => ¬ key x = p)).map key).contains i
          · rfl
          · exact absurd (List.mem_of_elem_eq_true hq) hc2
        have hb2 : (cand.map key).contains i = false := by
          cases hq : (cand.map key).contains i
          · rfl
          · exact absurd (List.mem_of_elem_eq_true hq) hc
        rw [hb1, hb2]
    rw [hfirst, hsecond, List.filter_cons]
    by_cases hp : (cand.map key).contains p
    · rw [if_pos hp, if_pos hp]
      rfl
    · rw [if_neg hp, if_neg hp]
      rfl

/-! ### The snapshot ordering of a successful allocation (claim C4) -/

theorem applyTouchBody_network (env : Env) (inst : Inst) (q : QPort) :
    (applyTouchBody env inst q).network_id = q.network_id := by
  rw [applyTouchBody]
  split <;> split <;> rfl

theorem applyTouchBody_tenant (env : Env) (inst : Inst) (q : QPort) :
    (applyTouchBody env inst q).tenant_id = q.tenant_id := by
  rw [applyTouchBody]
  split <;> split <;> rfl

theorem assocLookup_some {α : Type} {l : List (String × α)} {k : String} {v : α}
    (h : assocLookup l k = some v) : (k, v) ∈ l := by
  rw [assocLookup] at h
  rcases Option.map_eq_some'.mp h with ⟨kv, hfind, rfl⟩
  have hm := List.mem_of_find?_eq_some hfind
  have hk := List.find?_some hfind
  simp only [decide_eq_true_eq] at hk
  obtain ⟨a, b⟩ := kv
  have hk2 : a = k := hk
  subst hk2
  exact hm

theorem updatePortState_ids (st : QState) (pid : String) (f : QPort → QPort)
    (hf : ∀ q, (f q).id = q.id) :
    (updatePortState st pid f).ports.map (fun q => q.id) =
      st.ports.map (fun q => q.id) := by
  simp only [updatePortState]
  rw [List.map_map]
  apply List.map_congr_left
  intro p _
  by_cases hp : p.id = pid
  · simp only [Function.comp_apply, if_pos hp, hf]
  · simp only [Function.comp_apply, if_neg hp]

theorem mem_updatePortState_of_ne {st : QState} {pid : String} {f : QPort → QPort}
    {p : QPort} (hp : p ∈ st.ports) (hne : ¬ p.id = pid) :
    p ∈ (updatePortState st pid f).ports := by
  simp only [updatePortState]
  exact List.mem_map.mpr ⟨p, hp, by rw [if_neg hne]⟩

theorem mem_updatePortState_hit {st : QState} {pid : String} {f : QPort → QPort}
    {p : QPort} (hp : p ∈ st.ports) (heq : p.id = pid) :
    f p ∈ (updatePortState st pid f).ports := by
  simp only [updatePortState]
  exact List.mem_map.mpr ⟨p, hp, by rw [if_pos heq]⟩

theorem sortByPreferred_filter_comm {α : Type} (key : α → String) (cand : List α)
    (pref : List String) (q : α → Bool) :
    (sortByPreferred key cand pref).filter q =
      sortByPreferred key (cand.filter q) pref := by
  rw [sortByPreferred, sortByPreferred, List.filter_flatMap]
  apply flatMap_congr_fn
  intro j _
  rw [List.filter_filter, List.filter_filter]
  apply List.filter_congr
  intro x _
  rw [Bool.and_comm]

theorem ensureRequestedNetworkOrdering_all_ok {α : Type} (key : α → String)
    (cand : List α) (pref : List String)
    (hall : ∀ x ∈ cand, key x ∈ pref) :
    ensureRequestedNetworkOrdering key cand pref =
      .ok (if pref.isEmpty then cand else sortByPreferred key cand pref) := by
  rw [ensureRequestedNetworkOrdering]
  by_cases he : pref.isEmpty
  · rw [if_pos he, if_pos he]
  · have hb : (cand.all (fun x => (pyIndex pref (key x)).isSome)) = true := by
      rw [List.all_eq_true]
      intro x hx
      exact pyIndex_isSome_of_mem (hall x hx)
    rw [if_neg he, if_pos hb, if_neg he]

/-- The info-model build, in closed form: the cached seed followed by the
instance's on-network ports in preferred-network order. -/
theorem buildNetworkInfoModel_eq (st : QState) (inst : Inst) (nets : List QNetwork) :
    buildNetworkInfoModel st inst nets =
      .ok (cachedSeed inst ++
        (if (nets.map (fun n => n.id)).isEmpty then
            (instDevicePorts st inst).filter (fun p =>
              (nets.map (fun n => n.id)).contains p.network_id)
          else sortByPreferred (fun p : QPort => p.network_id)
            ((instDevicePorts st inst).filter (fun p =>
              (nets.map (fun n => n.id)).contains p.network_id))
            (nets.map (fun n => n.id))).map (mkVif nets)) := by
  have hall : ∀ x ∈ (instDevicePorts st inst).filter (fun p =>
      (nets.map (fun n => n.id)).contains p.network_id),
      (fun p : QPort => p.network_id) x ∈ nets.map (fun n => n.id) := by
    intro x hx
    have hmem := (List.mem_filter.mp hx).2
    simpa using hmem
  rw [buildNetworkInfoModel, ensureRequestedNetworkOrdering_all_ok _ _ _ hall]

/-- The per-network loop on the success path: the returned touched/created
ids extend the accumulators by ids allocated in this run (pre-existing
supplied-port ids or freshly generated ones); port ids stay duplicate-free;
untouched records survive; and each processed network ends the loop with
exactly one port bound to the instance whose id was allocated here. -/
theorem processNets_ok_spec (env : Env) (spec : FailSpec) (inst : Inst)
    (secGroups sgIds : List String)
    (pm : List (String × QPort)) (fim : List (String × String)) (st0 : QState)
    (hinj : Function.Injective env.genPortId)
    (hst0nd : (st0.ports.map (fun q => q.id)).Nodup)
    (hfresh : ∀ n, st0.nextPortId ≤ n → env.genPortId n ∉ st0.ports.map (fun q => q.id))
    (hpm : ∀ kv ∈ pm, kv.2 ∈ st0.ports ∧ kv.2.network_id = kv.1 ∧
      kv.2.tenant_id = inst.project_id) :
    ∀ (nets : List QNetwork) (am : Option (List String))
      (touched created : List String) (st : QState)
      (tF cF : List String) (stF : QState),
      processNets env spec inst secGroups sgIds pm fim nets am touched created st =
        (.ok (tF, cF), stF) →
      (nets.map (fun n => n.id)).Nodup →
      (st.ports.map (fun q => q.id)).Nodup →
      st0.nextPortId ≤ st.nextPortId →
      (∀ n, st.nextPortId ≤ n → env.genPortId n ∉ st.ports.map (fun q => q.id)) →
      (∀ net ∈ nets, ∀ p : QPort, assocLookup pm net.id = some p → p ∈ st.ports) →
      ∃ Δt Δc : List String,
        tF = touched ++ Δt ∧ cF = created ++ Δc ∧
        (stF.ports.map (fun q => q.id)).Nodup ∧
        (∀ a ∈ Δt ++ Δc,
          (∃ net ∈ nets, ∃ p : QPort, assocLookup pm net.id = some p ∧ a = p.id) ∨
          (∃ n, st.nextPortId ≤ n ∧ a = env.genPortId n)) ∧
        (∀ p ∈ st.ports, p.id ∉ Δt ++ Δc → p ∈ stF.ports) ∧
        (∀ net ∈ nets, ∃ p, p ∈ stF.ports ∧ p.id ∈ Δt ++ Δc ∧ p.network_id = net.id ∧
          p.tenant_id = inst.project_id ∧ p.device_id = some inst.uuid) ∧
        (∀ p ∈ stF.ports, p.id ∈ Δt ++ Δc → p.tenant_id = inst.project_id ∧
          p.device_id = some inst.uuid ∧ p.network_id ∈ nets.map (fun n => n.id)) ∧
        (∀ p ∈ stF.ports, ∀ q ∈ stF.ports, p.id ∈ Δt ++ Δc → q.id ∈ Δt ++ Δc →
          p.network_id = q.network_id → p.id = q.id) := by
  intro nets
  induction nets with
  | nil =>
    intro am touched created st tF cF stF hrun _ hndst _ _ _
    rw [processNets] at hrun
    have h1 : (Except.ok (touched, created) :
        Except NovaError (List String × List String)) = .ok (tF, cF) :=
      congrArg Prod.fst hrun
    have h2 : st = stF := congrArg Prod.snd hrun
    have h3 : touched = tF ∧ created = cF := by
      injection h1 with h4
      exact ⟨congrArg Prod.fst h4, congrArg Prod.snd h4⟩
    refine ⟨[], [], by rw [← h3.1, List.append_nil], by rw [← h3.2, List.append_nil],
      ?_, ?_, ?_, ?_, ?_, ?_⟩
    · rw [← h2]; exact hndst
    · intro a ha; simp at ha
    · intro p hp _; rw [← h2]; exact hp
    · intro net hnet; simp at hnet
    · intro p _ hid; simp at hid
    · intro p _ q _ hid _ _; simp at hid
  | cons net rest ih =>
    intro am touched created st tF cF stF hrun hndids hndst hnext hfreshSt hpmst
    simp only [processNets] at hrun
    rw [List.map_cons] at hndids
    obtain ⟨hnidrest, hndrest⟩ := List.nodup_cons.mp hndids
    by_cases hsgc : secGroups ≠ [] ∧
        ¬ (net.subnets ≠ [] ∧ net.port_security_enabled.getD true)
    · rw [if_pos hsgc] at hrun
      have hrun2 : ((.error NovaError.securityGroupCannotBeApplied :
          Except NovaError (List String × List String)), st) = (.ok (tF, cF), stF) := hrun
      exact Except.noConfusion (congrArg Prod.fst hrun2)
    · rw [if_neg hsgc] at hrun
      have herrCase : ∀ e2 : NovaError,
          guardedStep env spec inst sgIds pm fim net am st = .error e2 → False := by
        intro e2 hstep
        rw [hstep] at hrun
        have hrun2 : ((.error e2 : Except NovaError (List String × List String)),
            rollbackApply env spec touched created st) = (.ok (tF, cF), stF) := hrun
        exact Except.noConfusion (congrArg Prod.fst hrun2)
      have hcreateCase : ∀ (macOpt : Option String) (am2 : Option (List String)),
          guardedStep env spec inst sgIds pm fim net am st =
            .ok (am2, .createdPort (createdPortBody env inst sgIds fim net macOpt st).id,
              { st with
                ports := st.ports ++ [createdPortBody env inst sgIds fim net macOpt st],
                nextPortId := st.nextPortId + 1 }) →
          ∃ Δt Δc : List String,
            tF = touched ++ Δt ∧ cF = created ++ Δc ∧
            (stF.ports.map (fun q => q.id)).Nodup ∧
            (∀ a ∈ Δt ++ Δc,
              (∃ net' ∈ net :: rest, ∃ p : QPort,
                assocLookup pm net'.id = some p ∧ a = p.id) ∨
              (∃ n, st.nextPortId ≤ n ∧ a = env.genPortId n)) ∧
            (∀ p ∈ st.ports, p.id ∉ Δt ++ Δc → p ∈ stF.ports) ∧
            (∀ net' ∈ net :: rest, ∃ p, p ∈ stF.ports ∧ p.id ∈ Δt ++ Δc ∧
              p.network_id = net'.id ∧ p.tenant_id = inst.project_id ∧
              p.device_id = some inst.uuid) ∧
            (∀ p ∈ stF.ports, p.id ∈ Δt ++ Δc → p.tenant_id = inst.project_id ∧
              p.device_id = some inst.uuid ∧
              p.network_id ∈ (net :: rest).map (fun n => n.id)) ∧
            (∀ p ∈ stF.ports, ∀ q ∈ stF.ports, p.id ∈ Δt ++ Δc → q.id ∈ Δt ++ Δc →
              p.network_id = q.network_id → p.id = q.id) := by
        intro macOpt am2 hstep
        rw [hstep] at hrun
        have hrun2 : processNets env spec inst secGroups sgIds pm fim rest am2
            touched (created ++ [(createdPortBody env inst sgIds fim net macOpt st).id])
            { st with
              ports := st.ports ++ [createdPortBody env inst sgIds fim net macOpt st],
              nextPortId := st.nextPortId + 1 } = (.ok (tF, cF), stF) := hrun
        have hδid : (createdPortBody env inst sgIds fim net macOpt st).id =
            env.genPortId st.nextPortId := rfl
        have hids2 : ({ st with
            ports := st.ports ++ [createdPortBody env inst sgIds fim net macOpt st],
            nextPortId := st.nextPortId + 1 } : QState).ports.map (fun q => q.id) =
            st.ports.map (fun q => q.id) ++ [env.genPortId st.nextPortId] := by
          show (st.ports ++ [createdPortBody env inst sgIds fim net macOpt st]).map
            (fun q => q.id) = _
          rw [List.map_append]
          rfl
        have hδfresh : env.genPortId st.nextPortId ∉ st.ports.map (fun q => q.id) :=
          hfreshSt st.nextPortId (le_refl _)
        obtain ⟨Δt, Δc, htF, hcF, hndF, hchar, hP3, hP4, hP6, hstar⟩ :=
          ih am2 touched
            (created ++ [(createdPortBody env inst sgIds fim net macOpt st).id]) _
            tF cF stF hrun2 hndrest
            (by
              rw [hids2]
              refine List.Nodup.append hndst (List.nodup_singleton _) ?_
              intro a ha hb
              have hab : a = env.genPortId st.nextPortId := by simpa using hb
              rw [hab] at ha
              exact hδfresh ha)
            (le_trans hnext (Nat.le_succ _))
            (by
              intro n hn
              have hn' : st.nextPortId + 1 ≤ n := hn
              rw [hids2]
              intro hmem
              rcases List.mem_append.mp hmem with h1 | h1
              · exact hfreshSt n (by omega) h1
              · have heqg : env.genPortId n = env.genPortId st.nextPortId := by
                  simpa using h1
                have := hinj heqg
                omega)
            (by
              intro net' hnet' p' hlk'
              have hpst' : p' ∈ st.ports :=
                hpmst net' (List.mem_cons_of_mem net hnet') p' hlk'
              exact List.mem_append_left _ hpst')
        have hrmem2 : createdPortBody env inst sgIds fim net macOpt st ∈
            ({ st with
              ports := st.ports ++ [createdPortBody env inst sgIds fim net macOpt st],
              nextPortId := st.nextPortId + 1 } : QState).ports :=
          List.mem_append_right _ (List.mem_singleton.mpr rfl)
        have hδ : (createdPortBody env inst sgIds fim net macOpt st).id ∉ Δt ++ Δc := by
          rw [hδid]
          intro hmem
          rcases hchar _ hmem with ⟨net', hnet', p', hlk', heq⟩ | ⟨n, hn, heq⟩
          · obtain ⟨hp0', _, _⟩ := hpm (net'.id, p') (assocLookup_some hlk')
            apply hfresh st.nextPortId hnext
            rw [heq]
            exact List.mem_map.mpr ⟨p', hp0', rfl⟩
          · have hn' : st.nextPortId + 1 ≤ n := hn
            have := hinj heq
            omega
        have hrF : createdPortBody env inst sgIds fim net macOpt st ∈ stF.ports :=
          hP3 _ hrmem2 hδ
        have hmemiff : ∀ a : String,
            a ∈ Δt ++ ((createdPortBody env inst sgIds fim net macOpt st).id :: Δc) ↔
            (a = (createdPortBody env inst sgIds fim net macOpt st).id ∨
              a ∈ Δt ++ Δc) := by
          intro a
          simp only [List.mem_append, List.mem_cons]
          tauto
        refine ⟨Δt, (createdPortBody env inst sgIds fim net macOpt st).id :: Δc, htF,
          ?_, hndF, ?_, ?_, ?_, ?_, ?_⟩
        · rw [hcF, List.append_assoc, List.singleton_append]
        · intro a ha
          rcases (hmemiff a).mp ha with rfl | ha'
          · exact Or.inr ⟨st.nextPortId, le_refl _, hδid⟩
          · rcases hchar a ha' with ⟨net', hnet', p', hlk', heq⟩ | ⟨n, hn, heq⟩
            · exact Or.inl ⟨net', List.mem_cons_of_mem net hnet', p', hlk', heq⟩
            · have hn' : st.nextPortId + 1 ≤ n := hn
              exact Or.inr ⟨n, by omega, heq⟩
        · intro p hp hnin
          have hnin' : p.id ∉ Δt ++ Δc := fun hc => hnin ((hmemiff p.id).mpr (Or.inr hc))
          exact hP3 p (List.mem_append_left _ hp) hnin'
        · intro net'' hnet''
          rcases List.mem_cons.mp hnet'' with rfl | h''
          · exact ⟨createdPortBody env inst sgIds fim net'' macOpt st, hrF,
              (hmemiff _).mpr (Or.inl rfl),
              createdPortBody_network env inst sgIds fim net'' macOpt st,
              createdPortBody_tenant env inst sgIds fim net'' macOpt st,
              createdPortBody_device env inst sgIds fim net'' macOpt st⟩
          · obtain ⟨p, hpF, hpid, hpn, hpt, hpd⟩ := hP4 net'' h''
            exact ⟨p, hpF, (hmemiff p.id).mpr (Or.inr hpid), hpn, hpt, hpd⟩
        · intro p hpF hpid
          rcases (hmemiff p.id).mp hpid with hc | hc
          · have hpr : p = createdPortBody env inst sgIds fim net macOpt st :=
              List.inj_on_of_nodup_map hndF hpF hrF hc
            refine ⟨?_, ?_, ?_⟩
            · rw [hpr]; exact createdPortBody_tenant env inst sgIds fim net macOpt st
            · rw [hpr]; exact createdPortBody_device env inst sgIds fim net macOpt st
            · rw [hpr, createdPortBody_network, List.map_cons]
              exact List.mem_cons_self _ _
          · obtain ⟨ht, hd, hn⟩ := hP6 p hpF hc
            exact ⟨ht, hd, by rw [List.map_cons]; exact List.mem_cons_of_mem _ hn⟩
        · intro p hpF q hqF hpid hqid hnet2
          rcases (hmemiff p.id).mp hpid with hc | hc <;>
            rcases (hmemiff q.id).mp hqid with hc' | hc'
          · rw [hc, hc']
          · exfalso
            have hpr : p = createdPortBody env inst sgIds fim net macOpt st :=
              List.inj_on_of_nodup_map hndF hpF hrF hc
            apply hnidrest
            have hpn : p.network_id = net.id := by
              rw [hpr]; exact createdPortBody_network env inst sgIds fim net macOpt st
            rw [← hpn, hnet2]
            exact (hP6 q hqF hc').2.2
          · exfalso
            have hqr : q = createdPortBody env inst sgIds fim net macOpt st :=
              List.inj_on_of_nodup_map hndF hqF hrF hc'
            apply hnidrest
            have hqn : q.network_id = net.id := by
              rw [hqr]; exact createdPortBody_network env inst sgIds fim net macOpt st
            rw [← hqn, ← hnet2]
            exact (hP6 p hpF hc).2.2
          · exact hstar p hpF q hqF hc hc' hnet2
      cases hlk : assocLookup pm net.id with
      | some port =>
        by_cases hf : spec.updatePortFails port.id = true
        · exact absurd
            (guardedStep_touch_fail env spec inst sgIds pm fim net am st port hlk hf)
            (fun hc => herrCase _ hc)
        · have hf2 : spec.updatePortFails port.id = false := by
            cases h : spec.updatePortFails port.id
            · rfl
            · exact absurd h hf
          rw [guardedStep_touch env spec inst sgIds pm fim net am st port hlk hf2] at hrun
          have hrun2 : processNets env spec inst secGroups sgIds pm fim rest am
              (touched ++ [port.id]) created
              (updatePortState st port.id (applyTouchBody env inst)) =
              (.ok (tF, cF), stF) := hrun
          obtain ⟨hp00, hpnet0, hpten0⟩ := hpm (net.id, port) (assocLookup_some hlk)
          have hp0 : port ∈ st0.ports := hp00
          have hpnet : port.network_id = net.id := hpnet0
          have hpten : port.tenant_id = inst.project_id := hpten0
          have hpst : port ∈ st.ports := hpmst net (List.mem_cons_self net rest) port hlk
          have hids2 : (updatePortState st port.id
              (applyTouchBody env inst)).ports.map (fun q => q.id) =
              st.ports.map (fun q => q.id) :=
            updatePortState_ids st port.id _ (fun q => applyTouchBody_id env inst q)
          obtain ⟨Δt, Δc, htF, hcF, hndF, hchar, hP3, hP4, hP6, hstar⟩ :=
            ih am (touched ++ [port.id]) created _ tF cF stF hrun2 hndrest
              (by rw [hids2]; exact hndst)
              hnext
              (by intro n hn; rw [hids2]; exact hfreshSt n hn)
              (by
                intro net' hnet' p' hlk'
                obtain ⟨_, hpnet'0, _⟩ := hpm (net'.id, p') (assocLookup_some hlk')
                have hpnet' : p'.network_id = net'.id := hpnet'0
                have hpst' : p' ∈ st.ports :=
                  hpmst net' (List.mem_cons_of_mem net hnet') p' hlk'
                have hne : ¬ p'.id = port.id := by
                  intro hcontra
                  have hrec : p' = port :=
                    List.inj_on_of_nodup_map hndst hpst' hpst hcontra
                  apply hnidrest
                  have hm' : net'.id ∈ rest.map (fun n => n.id) :=
                    List.mem_map.mpr ⟨net', hnet', rfl⟩
                  have heq2 : net.id = net'.id := by rw [← hpnet, ← hrec, hpnet']
                  rw [heq2]
                  exact hm'
                exact mem_updatePortState_of_ne hpst' hne)
          have hrmem2 : applyTouchBody env inst port ∈
              (updatePortState st port.id (applyTouchBody env inst)).ports :=
            mem_updatePortState_hit hpst rfl
          have hrid : (applyTouchBody env inst port).id = port.id :=
            applyTouchBody_id env inst port
          have hδ : port.id ∉ Δt ++ Δc := by
            intro hmem
            rcases hchar port.id hmem with ⟨net', hnet', p', hlk', heq⟩ | ⟨n, hn, heq⟩
            · obtain ⟨hp0'0, hpnet'0, _⟩ := hpm (net'.id, p') (assocLookup_some hlk')
              have hp0' : p' ∈ st0.ports := hp0'0
              have hpnet' : p'.network_id = net'.id := hpnet'0
              have hrec : port = p' := List.inj_on_of_nodup_map hst0nd hp0 hp0' heq
              apply hnidrest
              have hm' : net'.id ∈ rest.map (fun n => n.id) :=
                List.mem_map.mpr ⟨net', hnet', rfl⟩
              have heq2 : net.id = net'.id := by rw [← hpnet, hrec, hpnet']
              rw [heq2]
              exact hm'
            · apply hfresh n (le_trans hnext hn)
              rw [← heq]
              exact List.mem_map.mpr ⟨port, hp0, rfl⟩
          have hrF : applyTouchBody env inst port ∈ stF.ports := by
            apply hP3 _ hrmem2
            rw [hrid]
            exact hδ
          have hmemiff : ∀ a : String, a ∈ (port.id :: Δt) ++ Δc ↔
              (a = port.id ∨ a ∈ Δt ++ Δc) := by
            intro a
            simp only [List.mem_append, List.mem_cons]
            tauto
          refine ⟨port.id :: Δt, Δc, ?_, hcF, hndF, ?_, ?_, ?_, ?_, ?_⟩
          · rw [htF, List.append_assoc, List.singleton_append]
          · intro a ha
            rcases (hmemiff a).mp ha with rfl | ha'
            · exact Or.inl ⟨net, List.mem_cons_self net rest, port, hlk, rfl⟩
            · rcases hchar a ha' with ⟨net', hnet', p', hlk', heq⟩ | ⟨n, hn, heq⟩
              · exact Or.inl ⟨net', List.mem_cons_of_mem net hnet', p', hlk', heq⟩
              · exact Or.inr ⟨n, hn, heq⟩
          · intro p hp hnin
            have hne : ¬ p.id = port.id := fun hc => hnin ((hmemiff p.id).mpr (Or.inl hc))
            have hnin' : p.id ∉ Δt ++ Δc :=
              fun hc => hnin ((hmemiff p.id).mpr (Or.inr hc))
            exact hP3 p (mem_updatePortState_of_ne hp hne) hnin'
          · intro net'' hnet''
            rcases List.mem_cons.mp hnet'' with rfl | h''
            · refine ⟨applyTouchBody env inst port, hrF, ?_, ?_, ?_, ?_⟩
              · rw [hrid]; exact (hmemiff port.id).mpr (Or.inl rfl)
              · rw [applyTouchBody_network, hpnet]
              · rw [applyTouchBody_tenant, hpten]
              · exact applyTouchBody_device env inst port
            · obtain ⟨p, hpF, hpid, hpn, hpt, hpd⟩ := hP4 net'' h''
              exact ⟨p, hpF, (hmemiff p.id).mpr (Or.inr hpid), hpn, hpt, hpd⟩
          · intro p hpF hpid
            rcases (hmemiff p.id).mp hpid with hc | hc
            · have hpr : p = applyTouchBody env inst port :=
                List.inj_on_of_nodup_map hndF hpF hrF (by rw [hc, hrid])
              refine ⟨?_, ?_, ?_⟩
              · rw [hpr, applyTouchBody_tenant, hpten]
              · rw [hpr]; exact applyTouchBody_device env inst port
              · rw [hpr, applyTouchBody_network, hpnet, List.map_cons]
                exact List.mem_cons_self _ _
            · obtain ⟨ht, hd, hn⟩ := hP6 p hpF hc
              exact ⟨ht, hd, by rw [List.map_cons]; exact List.mem_cons_of_mem _ hn⟩
          · intro p hpF q hqF hpid hqid hnet2
            rcases (hmemiff p.id).mp hpid with hc | hc <;>
              rcases (hmemiff q.id).mp hqid with hc' | hc'
            · rw [hc, hc']
            · exfalso
              have hpr : p = applyTouchBody env inst port :=
                List.inj_on_of_nodup_map hndF hpF hrF (by rw [hc, hrid])
              apply hnidrest
              have hpn : p.network_id = net.id := by
                rw [hpr, applyTouchBody_network, hpnet]
              rw [← hpn, hnet2]
              exact (hP6 q hqF hc').2.2
            · exfalso
              have hqr : q = applyTouchBody env inst port :=
                List.inj_on_of_nodup_map hndF hqF hrF (by rw [hc', hrid])
              apply hnidrest
              have hqn : q.network_id = net.id := by
                rw [hqr, applyTouchBody_network, hpnet]
              rw [← hqn, ← hnet2]
              exact (hP6 p hpF hc).2.2
            · exact hstar p hpF q hqF hc hc' hnet2
      | none =>
        cases ham : am with
        | none =>
          rw [ham] at hrun hcreateCase
          by_cases hf : spec.createPortFails net.id = true
          · exact absurd
              (guardedStep_create_fail_nil env spec inst sgIds pm fim net st hlk hf)
              (fun hc => herrCase _ (by rw [ham]; exact hc))
          · have hf2 : spec.createPortFails net.id = false := by
              cases h : spec.createPortFails net.id
              · rfl
              · exact absurd h hf
            exact hcreateCase none none
              (guardedStep_create_none env spec inst sgIds pm fim net st hlk hf2)
        | some l =>
          cases l with
          | nil =>
            exact absurd (guardedStep_exhausted env spec inst sgIds pm fim net st hlk)
              (fun hc => herrCase _ (by rw [ham]; exact hc))
          | cons m ms =>
            rw [ham] at hrun hcreateCase
            by_cases hf : spec.createPortFails net.id = true
            · exact absurd
                (guardedStep_create_fail_cons env spec inst sgIds pm fim net m ms st hlk hf)
                (fun hc => herrCase _ (by rw [ham]; exact hc))
            · have hf2 : spec.createPortFails net.id = false := by
                cases h : spec.createPortFails net.id
                · rfl
                · exact absurd h hf
              exact hcreateCase (some m) (some ms)
                (guardedStep_create_cons env spec inst sgIds pm fim net m ms st hlk hf2)

/-- The loop-plus-snapshot tail of a successful allocation: the returned
records follow the resolved networks' order, one record per network. -/
theorem allocateLoop_ok_ordering (env : Env) (spec : FailSpec) (inst : Inst)
    (sgs sgIds : List String) (pm : List (String × QPort))
    (fim : List (String × String)) (am : Option (List String))
    (nets : List QNetwork) (st0 : QState) (vifs : List VIF) (stF : QState)
    (hrun : allocateLoop env spec inst sgs sgIds pm fim am nets st0 = (.ok vifs, stF))
    (hinj : Function.Injective env.genPortId)
    (hndports : (st0.ports.map (fun q => q.id)).Nodup)
    (hfreshgen : ∀ n, st0.nextPortId ≤ n →
      env.genPortId n ∉ st0.ports.map (fun q => q.id))
    (hpm : ∀ kv ∈ pm, kv.2 ∈ st0.ports ∧ kv.2.network_id = kv.1 ∧
      kv.2.tenant_id = inst.project_id)
    (hcached : ∀ v ∈ inst.cachedVifs, v.id ∉ st0.ports.map (fun q => q.id) ∧
      ∀ n, v.id ≠ env.genPortId n)
    (hnetsnd : (nets.map (fun n => n.id)).Nodup) :
    vifs.map (fun v => v.network_id) = nets.map (fun n => n.id) := by
  rw [allocateLoop] at hrun
  rcases hloop : processNets env spec inst sgs sgIds pm fim nets am [] [] st0
    with ⟨res, st2⟩
  rw [hloop] at hrun
  cases res with
  | error e =>
    have hrun2 : ((.error e : Except NovaError (List VIF)), st2) = (.ok vifs, stF) := hrun
    exact Except.noConfusion (congrArg Prod.fst hrun2)
  | ok tc =>
    obtain ⟨tF, cF⟩ := tc
    have hrun2 : allocateFinish inst nets tF cF st2 = (.ok vifs, stF) := hrun
    obtain ⟨Δt, Δc, htF, hcF, hndF, hchar, hP3, hP4, hP6, hstar⟩ :=
      processNets_ok_spec env spec inst sgs sgIds pm fim st0 hinj hndports hfreshgen hpm
        nets am [] [] st0 tF cF st2 hloop hnetsnd hndports (le_refl _) hfreshgen
        (fun net _ p hlk => (hpm (net.id, p) (assocLookup_some hlk)).1)
    rw [List.nil_append] at htF hcF
    rw [htF, hcF] at hrun2
    rw [allocateFinish, buildNetworkInfoModel_eq] at hrun2
    have hrun3 : ((.ok ((cachedSeed inst ++
        ((if (nets.map (fun n => n.id)).isEmpty then
            (instDevicePorts st2 inst).filter (fun p =>
              (nets.map (fun n => n.id)).contains p.network_id)
          else sortByPreferred (fun p : QPort => p.network_id)
            ((instDevicePorts st2 inst).filter (fun p =>
              (nets.map (fun n => n.id)).contains p.network_id))
            (nets.map (fun n => n.id))).map (mkVif nets))).filter
          (fun v => (Δc ++ Δt).contains v.id)) : Except NovaError (List VIF)), st2) =
        (.ok vifs, stF) := hrun2
    have hvifs : vifs = (cachedSeed inst ++
        ((if (nets.map (fun n => n.id)).isEmpty then
            (instDevicePorts st2 inst).filter (fun p =>
              (nets.map (fun n => n.id)).contains p.network_id)
          else sortByPreferred (fun p : QPort => p.network_id)
            ((instDevicePorts st2 inst).filter (fun p =>
              (nets.map (fun n => n.id)).contains p.network_id))
            (nets.map (fun n => n.id))).map (mkVif nets))).filter
          (fun v => (Δc ++ Δt).contains v.id) :=
      (Except.ok.inj (congrArg Prod.fst hrun3)).symm
    have hcachedelim : (cachedSeed inst).filter
        (fun v => (Δc ++ Δt).contains v.id) = [] := by
      apply List.filter_eq_nil_iff.mpr
      intro v hv
      simp only [cachedSeed, List.mem_map] at hv
      obtain ⟨cv, hcv, rfl⟩ := hv
      obtain ⟨hcv1, hcv2⟩ := hcached cv hcv
      intro hcont
      have hmem : cv.id ∈ Δc ++ Δt := List.mem_of_elem_eq_true hcont
      have hmem2 : cv.id ∈ Δt ++ Δc := by
        rcases List.mem_append.mp hmem with h | h
        · exact List.mem_append_right _ h
        · exact List.mem_append_left _ h
      rcases hchar cv.id hmem2 with ⟨net', _, p', hlk', heq⟩ | ⟨n, _, heq⟩
      · obtain ⟨hp0', _, _⟩ := hpm (net'.id, p') (assocLookup_some hlk')
        apply hcv1
        rw [heq]
        exact List.mem_map.mpr ⟨p', hp0', rfl⟩
      · exact hcv2 n heq
    by_cases hempty2 : (nets.map (fun n => n.id)).isEmpty
    · have hnetsnil : nets = [] := by
        cases nets with
        | nil => rfl
        | cons a as => exact absurd hempty2 (by simp)
      subst hnetsnil
      rw [hvifs]
      rw [if_pos hempty2]
      have hP'nil : (instDevicePorts st2 inst).filter (fun p =>
          (([] : List QNetwork).map (fun n => n.id)).contains p.network_id) = [] := by
        apply List.filter_eq_nil_iff.mpr
        intro p _
        simp
      rw [hP'nil, List.map_nil, List.append_nil, hcachedelim]
      rfl
    · rw [hvifs, if_neg hempty2, List.filter_append, hcachedelim, List.nil_append]
      rw [List.filter_map]
      have hpred : ((instDevicePorts st2 inst).filter (fun p =>
          (nets.map (fun n => n.id)).contains p.network_id)).filter
            ((fun v => (Δc ++ Δt).contains v.id) ∘ mkVif nets) =
          ((instDevicePorts st2 inst).filter (fun p =>
            (nets.map (fun n => n.id)).contains p.network_id)).filter
            (fun p => (Δc ++ Δt).contains p.id) := by
        apply List.filter_congr
        intro p _
        rfl
      rw [sortByPreferred_filter_comm, hpred]
      have hmem3 : ∀ p : QPort, p ∈ ((instDevicePorts st2 inst).filter (fun p =>
          (nets.map (fun n => n.id)).contains p.network_id)).filter
            (fun p => (Δc ++ Δt).contains p.id) →
          p ∈ st2.ports ∧ p.id ∈ Δt ++ Δc ∧
            p.network_id ∈ nets.map (fun n => n.id) := by
        intro p hp
        obtain ⟨hp1, hp2⟩ := List.mem_filter.mp hp
        obtain ⟨hp3, hp4⟩ := List.mem_filter.mp hp1
        refine ⟨List.mem_of_mem_filter hp3, ?_, ?_⟩
        · have hmem : p.id ∈ Δc ++ Δt := List.mem_of_elem_eq_true hp2
          rcases List.mem_append.mp hmem with h | h
          · exact List.mem_append_right _ h
          · exact List.mem_append_left _ h
        · exact List.mem_of_elem_eq_true hp4
      have hsub : (((instDevicePorts st2 inst).filter (fun p =>
          (nets.map (fun n => n.id)).contains p.network_id)).filter
            (fun p => (Δc ++ Δt).contains p.id)).Sublist st2.ports :=
        (List.filter_sublist _).trans ((List.filter_sublist _).trans
          (List.filter_sublist _))
      have hP''nd : ((((instDevicePorts st2 inst).filter (fun p =>
          (nets.map (fun n => n.id)).contains p.network_id)).filter
            (fun p => (Δc ++ Δt).contains p.id)).map
              (fun p : QPort => p.network_id)).Nodup := by
        apply List.Nodup.map_on
        · intro p hp q hq hkey
          have h1 := hmem3 p hp
          have h2 := hmem3 q hq
          have hid := hstar p h1.1 q h2.1 h1.2.1 h2.2.1 hkey
          exact List.inj_on_of_nodup_map hndF h1.1 h2.1 hid
        · exact (List.Nodup.of_map _ hndF).sublist hsub
      have hP''keys : ∀ x ∈ ((instDevicePorts st2 inst).filter (fun p =>
          (nets.map (fun n => n.id)).contains p.network_id)).filter
            (fun p => (Δc ++ Δt).contains p.id),
          (fun p : QPort => p.network_id) x ∈ nets.map (fun n => n.id) :=
        fun x hx => (hmem3 x hx).2.2
      rw [List.map_map]
      have hcomp : ((fun v : VIF => v.network_id) ∘ mkVif nets) =
          (fun p : QPort => p.network_id) := by
        funext p
        rfl
      rw [hcomp]
      rw [sortByPreferred_map_key (fun p : QPort => p.network_id) (nets.map (fun n => n.id))
        _ hnetsnd hP''nd hP''keys]
      apply List.filter_eq_self.mpr
      intro i hi
      obtain ⟨n, hn, hni⟩ := List.mem_map.mp hi
      obtain ⟨p, hpSt2, hpid, hpnet, hpten, hpdev⟩ := hP4 n hn
      have hpP'' : p ∈ ((instDevicePorts st2 inst).filter (fun p =>
          (nets.map (fun n => n.id)).contains p.network_id)).filter
            (fun p => (Δc ++ Δt).contains p.id) := by
        apply List.mem_filter.mpr
        refine ⟨?_, ?_⟩
        · apply List.mem_filter.mpr
          refine ⟨?_, ?_⟩
          · apply List.mem_filter.mpr
            exact ⟨hpSt2, by simp [hpten, hpdev]⟩
          · apply List.elem_eq_true_of_mem
            rw [hpnet, hni]
            exact hi
        · show (Δc ++ Δt).contains p.id = true
          apply List.elem_eq_true_of_mem
          rcases List.mem_append.mp hpid with h | h
          · exact List.mem_append_right _ h
          · exact List.mem_append_left _ h
      apply List.elem_eq_true_of_mem
      apply List.mem_map.mpr
      exact ⟨p, hpP'', by rw [hpnet, hni]⟩

/-- C4: for every successful `allocate_for_instance` call whose request
imposes an explicit network ordering (a non-empty, duplicate-free requested
id list), over a well-formed remote store (duplicate-free port and network
ids, an injective and fresh port-id generator, request-supplied ports owned
by the project, cached interface ids distinct from remote and generated
ids), the returned attachment snapshot lists exactly one record per resolved
network, in the requested ordering restricted to the networks that actually
resolved. -/
theorem claim_C4_snapshot_ordering
    (env : Env) (spec : FailSpec) (inst : Inst) (reqs : List ReqNet)
    (hvMacs : Option (List String)) (sgs : List String) (st0 : QState)
    (pm : List (String × QPort)) (fim : List (String × String))
    (netIds : List String) (am : Option (List String))
    (vifs : List VIF) (stF : QState)
    (hrun : allocateForInstance env spec inst (some reqs) hvMacs sgs st0 =
      (.ok vifs, stF))
    (hparse : parseRequested st0 hvMacs reqs [] [] [] (hvMacs.map List.dedup) =
      .ok (pm, fim, netIds, am))
    (hne : netIds ≠ [])
    (hndid : netIds.Nodup)
    (hndports : (st0.ports.map (fun q => q.id)).Nodup)
    (hndnets : (st0.networks.map (fun n => n.id)).Nodup)
    (hinj : Function.Injective env.genPortId)
    (hfreshgen : ∀ n, st0.nextPortId ≤ n →
      env.genPortId n ∉ st0.ports.map (fun q => q.id))
    (hpm : ∀ kv ∈ pm, kv.2 ∈ st0.ports ∧ kv.2.network_id = kv.1 ∧
      kv.2.tenant_id = inst.project_id)
    (hcached : ∀ v ∈ inst.cachedVifs, v.id ∉ st0.ports.map (fun q => q.id) ∧
      ∀ n, v.id ≠ env.genPortId n) :
    ∃ nets, getAvailableNetworks st0 inst.project_id netIds = .ok nets ∧
      vifs.map (fun v => v.network_id) =
        netIds.filter (fun i => (nets.map (fun n => n.id)).contains i) := by
  by_cases hproj : inst.project_id = ""
  · rw [allocateForInstance, if_pos hproj] at hrun
    exact absurd (congrArg Prod.fst hrun) (by simp)
  · have hempty : netIds.isEmpty = false := by
      cases netIds with
      | nil => exact absurd rfl hne
      | cons a as => rfl
    have hgan : getAvailableNetworks st0 inst.project_id netIds =
        .ok (sortByPreferred (fun n : QNetwork => n.id)
          (availCandidates st0 inst.project_id netIds) netIds) := by
      rw [getAvailableNetworks_eq, if_neg (by simp [hempty])]
    have hcandnd : ((availCandidates st0 inst.project_id netIds).map
        (fun n : QNetwork => n.id)).Nodup := availCandidates_ids_nodup hndnets
    have hkeys : ∀ x ∈ availCandidates st0 inst.project_id netIds,
        (fun n : QNetwork => n.id) x ∈ netIds :=
      fun x hx => (availCandidates_mem hx).2 hne
    have hmapkey := sortByPreferred_map_key (fun n : QNetwork => n.id) netIds
      (availCandidates st0 inst.project_id netIds) hndid hcandnd hkeys
    have hnetsnd : ((sortByPreferred (fun n : QNetwork => n.id)
        (availCandidates st0 inst.project_id netIds) netIds).map
          (fun n : QNetwork => n.id)).Nodup := by
      rw [hmapkey]
      exact hndid.filter _
    have hrun2 : allocateAfterParse env spec inst sgs pm fim netIds am st0 =
        (.ok vifs, stF) := by
      have h := hrun
      simp only [allocateForInstance, if_neg hproj, Option.getD_some, hparse] at h
      exact h
    rw [allocateAfterParse, hgan] at hrun2
    have hrun3 : allocateWithNets env spec inst sgs pm fim am
        (sortByPreferred (fun n : QNetwork => n.id)
          (availCandidates st0 inst.project_id netIds) netIds) st0 =
        (.ok vifs, stF) := hrun2
    rw [allocateWithNets] at hrun3
    cases hsg : resolveSecurityGroups (listSecurityGroups st0 inst.project_id) sgs with
    | error e =>
      rw [hsg] at hrun3
      have hrun4 : ((.error e : Except NovaError (List VIF)), st0) =
          (.ok vifs, stF) := hrun3
      exact Except.noConfusion (congrArg Prod.fst hrun4)
    | ok sgIds =>
      rw [hsg] at hrun3
      have hloopord := allocateLoop_ok_ordering env spec inst sgs sgIds pm fim am
        (sortByPreferred (fun n : QNetwork => n.id)
          (availCandidates st0 inst.project_id netIds) netIds) st0 vifs stF hrun3
        hinj hndports hfreshgen hpm hcached hnetsnd
      refine ⟨_, hgan, ?_⟩
      rw [hloopord, hmapkey]
      apply List.filter_congr
      intro i hi
      by_cases hc : i ∈ (availCandidates st0 inst.project_id netIds).map
          (fun n : QNetwork => n.id)
      · have h1 : ((availCandidates st0 inst.project_id netIds).map
            (fun n : QNetwork => n.id)).contains i = true :=
          List.elem_eq_true_of_mem hc
        have h2 : (netIds.filter (fun i =>
            ((availCandidates st0 inst.project_id netIds).map
              (fun n : QNetwork => n.id)).contains i)).contains i = true := by
          apply List.elem_eq_true_of_mem
          exact List.mem_filter.mpr ⟨hi, h1⟩
        rw [h1, h2]
      · have h1 : ((availCandidates st0 inst.project_id netIds).map
            (fun n : QNetwork => n.id)).contains i = false := by
          cases hq : ((availCandidates st0 inst.project_id netIds).map
              (fun n : QNetwork => n.id)).contains i
          · rfl
          · exact absurd (List.mem_of_elem_eq_true hq) hc
        have h2 : (netIds.filter (fun i =>
            ((availCandidates st0 inst.project_id netIds).map
              (fun n : QNetwork => n.id)).contains i)).contains i = false := by
          cases hq : (netIds.filter (fun i =>
              ((availCandidates st0 inst.project_id netIds).map
                (fun n : QNetwork => n.id)).contains i)).contains i
          · rfl
          · have hm := (List.mem_filter.mp (List.mem_of_elem_eq_true hq)).2
            rw [h1] at hm
            exact Bool.noConfusion hm
        rw [h1, h2]

/-! ### Concrete C4 scenario: one requested network, one created port -/

/-- An injective port-id generator: `n` maps to `n + 1` copies of `x`. -/
def c4Gen : Nat → String := fun n => String.mk (List.replicate (n + 1) 'x')

def c4Env : Env := ⟨false, false, c4Gen⟩

def c4Net : QNetwork := ⟨"nA", "netA", "t", false, ["subA"], none⟩

def c4Inst : Inst := ⟨"i1", "t", "z", none, none, []⟩

def c4State : QState := ⟨[c4Net], [], [], [], 0⟩

def c4Reqs : List ReqNet := [⟨some "nA", none, none⟩]

def c4Port : QPort := createdPortBody c4Env c4Inst [] [] c4Net none c4State

def c4StF : QState := ⟨[c4Net], [c4Port], [], [], 1⟩

def c4Vif : VIF := mkVif [c4Net] c4Port

theorem c4Gen_inj : Function.Injective c4Gen := by
  intro a b h
  have h2 := congrArg (fun s => s.data.length) h
  simp [c4Gen] at h2
  exact h2

/-- C4 witness: a store with one network `nA`, requested as the single entry;
the run succeeds, resolves `[nA]`, creates one port, and the snapshot lists
exactly the `nA` record. -/
theorem claim_C4_snapshot_ordering_witness :
    ∃ nets, getAvailableNetworks c4State "t" ["nA"] = .ok nets ∧
      ([c4Vif].map (fun v => v.network_id)) =
        (["nA"].filter (fun i => (nets.map (fun n => n.id)).contains i)) :=
  claim_C4_snapshot_ordering c4Env noFail c4Inst c4Reqs none [] c4State [] []
    ["nA"] none [c4Vif] c4StF rfl rfl (by simp) (by simp) (by simp [c4State])
    (by simp [c4State]) c4Gen_inj (by intro n _; simp [c4State])
    (by intro kv hkv; exact absurd hkv (List.not_mem_nil _))
    (by intro v hv; simp [c4Inst] at hv)
